import Mathlib

/-!
# NAS Explorer core — shallow embedding and verification

This file embeds the core of the `nas-explorer` application (files under
`app/`: `smb_fs.py`, `crypto.py`, `categorizer.py`, `nas_manager.py`,
`scanner.py`, `database.py`) as executable Lean definitions and proves, or
refutes, the specification claims about them.

Conventions of the embedding:
* Python `str` values are Lean `String`s; the Python string methods used by
  the source (`replace`, `rstrip`, `strip`, `startswith`, `split(c, 1)`,
  `rfind`, slicing) are modelled as explicit functions on `String.data`.
* Machine-independent I/O collaborators (the SMB transport, the `mimetypes`
  table, `datetime` parsing, the Fernet cipher of the `cryptography`
  package) are parameters of the definitions that use them; everything the
  repository itself computes is translated directly.
* SQLite tables are Lean lists. The `files.path UNIQUE` constraint makes
  surrogate row ids and logical paths interchangeable keys, so rows of
  `file_tags` and `file_metadata` are keyed here by the owning file's path.
-/

set_option maxRecDepth 20000

-- ═══════════════════════ Python string primitives ═══════════════════════

/-- The backslash character, SMB's path separator. -/
def bslashChar : Char := '\\'

/-- Python `s.replace(a, b)` for single characters. -/
def pyReplaceChar (a b : Char) (s : String) : String :=
  ⟨s.data.map (fun c => if c = a then b else c)⟩

/-- Python `s.rstrip(c)` for a single strip character. -/
def pyRstripChar (c : Char) (s : String) : String :=
  ⟨(s.data.reverse.dropWhile (· = c)).reverse⟩

/-- Python `s.strip(c)` for a single strip character. -/
def pyStripChar (c : Char) (s : String) : String :=
  ⟨((s.data.dropWhile (· = c)).reverse.dropWhile (· = c)).reverse⟩

/-- Python `s.startswith(p)`. -/
def pyStartsWith (s p : String) : Bool :=
  p.data.isPrefixOf s.data

/-- Python `s[n:]` (slicing by characters). -/
def pyDropChars (n : Nat) (s : String) : String :=
  ⟨s.data.drop n⟩

/-- Split a character list at the first occurrence of `c`:
the part before it and, when `c` occurs, the part after it. -/
def breakAtChar (c : Char) : List Char → List Char × Option (List Char)
  | [] => ([], none)
  | x :: xs =>
    if x = c then ([], some xs)
    else
      let r := breakAtChar c xs
      (x :: r.1, r.2)

/-- Python `s.split(c, 1)`: one or two pieces, never the empty list. -/
def pySplitOnce (c : Char) (s : String) : List String :=
  match breakAtChar c s.data with
  | (a, none) => [⟨a⟩]
  | (a, some b) => [⟨a⟩, ⟨b⟩]

/-- The part of `s` after the last `c` (all of `s` if `c` is absent):
Python `s.split(c)[-1]`. -/
def pyLastComponent (c : Char) (s : String) : String :=
  ⟨(s.data.reverse.takeWhile (· ≠ c)).reverse⟩

/-- Everything before the last `c` in `s`, or `""` when `c` is absent:
Python `c.join(s.rsplit(c, 1)[:-1])`. -/
def pyBeforeLastComponent (c : Char) (s : String) : String :=
  if s.data.contains c then ⟨((s.data.reverse.dropWhile (· ≠ c)).tail).reverse⟩
  else ""

/-- SQL `LIKE` matching (`%` any run of characters, `_` any one
character), as used by the catalog queries `path LIKE '/<label>/%'`:
a `%` may match any suffix split, the other pattern characters consume
one string character each. -/
def likeMatch : List Char → List Char → Bool
  | [], s => s.isEmpty
  | p :: ps, s =>
    if p = '%' then s.tails.any (fun t => likeMatch ps t)
    else
      match s with
      | [] => false
      | c :: s' => (if p = '_' then true else p = c) && likeMatch ps s'

-- ═══════════════════════ smb_fs.py — sources and path translation ═══════

/-- `smb_fs.SMBSource`: one SMB share or subfolder to index. -/
structure SMBSource where
  host : String
  share : String
  username : String
  password : String
  subfolder : String := "/"
  label : String := ""
deriving Repr, DecidableEq

/-- `SMBSource.smb_root`: full SMB path to this source's root. -/
def SMBSource.smb_root (s : SMBSource) : String :=
  let base := "\\\\" ++ s.host ++ "\\" ++ s.share
  if s.subfolder ≠ "" ∧ s.subfolder ≠ "/" then
    base ++ "\\" ++ pyStripChar bslashChar (pyReplaceChar '/' bslashChar s.subfolder)
  else base

/-- `SMBSource.source_id`: unique identifier for this source. -/
def SMBSource.source_id (s : SMBSource) : String :=
  pyRstripChar '/' (s.host ++ "/" ++ s.share ++ s.subfolder)

/-- The effective label, `source.label or source.share` as the scanner and
path translation compute it. -/
def SMBSource.effLabel (s : SMBSource) : String :=
  if s.label = "" then s.share else s.label

/-- `smb_fs.smb_to_relative`: convert an SMB path to the logical path stored
in the catalog (`/<label>/relative/path`). -/
def smb_to_relative (smb_path : String) (source : SMBSource) : String :=
  let root := pyRstripChar bslashChar source.smb_root
  let norm_path := pyRstripChar bslashChar (pyReplaceChar '/' bslashChar smb_path)
  let norm_root := pyReplaceChar '/' bslashChar root
  if norm_path = norm_root then
    "/" ++ source.effLabel
  else if pyStartsWith norm_path (norm_root ++ "\\") then
    let rel := pyReplaceChar bslashChar '/' (pyDropChars (norm_root.length + 1) norm_path)
    "/" ++ source.effLabel ++ "/" ++ rel
  else
    -- Fallback
    "/" ++ pyLastComponent '/' (pyReplaceChar bslashChar '/' smb_path)

/-- Inner loop of `smb_fs.relative_to_smb`: find the first source whose
effective label equals the first path component and rebuild the SMB path. -/
def relative_to_smb_go (source_label remaining : String) : List SMBSource → Option String
  | [] => none
  | s :: rest =>
    if s.effLabel = source_label then
      some (s.smb_root ++
        (if remaining ≠ "" then "\\" ++ pyReplaceChar '/' bslashChar remaining else ""))
    else relative_to_smb_go source_label remaining rest

/-- `smb_fs.relative_to_smb`: convert a logical catalog path back to an SMB
path by looking up the owning source by its first component. -/
def relative_to_smb (relative_path : String) (sources : List SMBSource) : Option String :=
  match pySplitOnce '/' (pyStripChar '/' relative_path) with
  | [] => none  -- unreachable: split(c, 1) never returns an empty list
  | source_label :: rest =>
    let remaining := match rest with | [r] => r | _ => ""
    relative_to_smb_go source_label remaining sources

-- ═══════════════════════ crypto.py — credential vault ═══════════════════

/-- The Fernet cipher of the external `cryptography` package, abstracted to
its interface: an encode/decode pair with the library's round-trip
guarantee on UTF-8 plaintexts. -/
structure FernetModel where
  enc : String → String
  dec : String → String
  dec_enc : ∀ s : String, dec (enc s) = s

/-- A trivial instantiation of the cipher interface, used to evaluate the
vault on concrete inputs. -/
def idFernet : FernetModel := ⟨id, id, fun _ => rfl⟩

/-- `crypto._ENCRYPTED_PREFIX`, the marker carried by ciphertexts. -/
def encMarker : String := "enc:"

/-- `crypto.encrypt`: empty values pass through, otherwise the Fernet token
of the plaintext behind the `enc:` marker. -/
def encrypt (f : FernetModel) (plaintext : String) : String :=
  if plaintext = "" then plaintext
  else encMarker ++ f.enc plaintext

/-- `crypto.decrypt`: empty and unmarked (legacy plaintext) values pass
through, otherwise the Fernet decryption of the part after the marker. -/
def decrypt (f : FernetModel) (value : String) : String :=
  if value = "" then value
  else if ¬ pyStartsWith value encMarker then value
  else f.dec (pyDropChars encMarker.length value)

/-- `crypto.is_encrypted`. -/
def is_encrypted (value : String) : Bool :=
  value ≠ "" && pyStartsWith value encMarker

-- ═══════════════════════ categorizer.py — rule engine ═══════════════════

/-- `categorizer.EXTENSION_CATEGORIES`: the fixed extension → tags table. -/
def EXTENSION_CATEGORIES : List (String × List String) := [
  (".mp4", ["media", "video"]),
  (".mkv", ["media", "video"]),
  (".avi", ["media", "video"]),
  (".mov", ["media", "video"]),
  (".wmv", ["media", "video"]),
  (".flv", ["media", "video"]),
  (".webm", ["media", "video"]),
  (".m4v", ["media", "video"]),
  (".ts", ["media", "video"]),
  (".mpg", ["media", "video"]),
  (".mpeg", ["media", "video"]),
  (".mp3", ["media", "audio", "music"]),
  (".flac", ["media", "audio", "music"]),
  (".wav", ["media", "audio"]),
  (".aac", ["media", "audio", "music"]),
  (".ogg", ["media", "audio"]),
  (".wma", ["media", "audio"]),
  (".m4a", ["media", "audio", "music"]),
  (".opus", ["media", "audio"]),
  (".aiff", ["media", "audio"]),
  (".jpg", ["media", "image", "photo"]),
  (".jpeg", ["media", "image", "photo"]),
  (".png", ["media", "image"]),
  (".gif", ["media", "image"]),
  (".bmp", ["media", "image"]),
  (".tiff", ["media", "image"]),
  (".tif", ["media", "image"]),
  (".webp", ["media", "image"]),
  (".svg", ["media", "image", "vector"]),
  (".raw", ["media", "image", "photo"]),
  (".cr2", ["media", "image", "photo"]),
  (".nef", ["media", "image", "photo"]),
  (".arw", ["media", "image", "photo"]),
  (".heic", ["media", "image", "photo"]),
  (".heif", ["media", "image", "photo"]),
  (".pdf", ["document"]),
  (".doc", ["document"]),
  (".docx", ["document"]),
  (".odt", ["document"]),
  (".rtf", ["document"]),
  (".txt", ["document", "text"]),
  (".md", ["document", "text"]),
  (".tex", ["document"]),
  (".epub", ["document", "ebook"]),
  (".xlsx", ["document", "spreadsheet"]),
  (".xls", ["document", "spreadsheet"]),
  (".csv", ["document", "data"]),
  (".tsv", ["document", "data"]),
  (".ods", ["document", "spreadsheet"]),
  (".pptx", ["document", "presentation"]),
  (".ppt", ["document", "presentation"]),
  (".odp", ["document", "presentation"]),
  (".key", ["document", "presentation"]),
  (".py", ["code", "python"]),
  (".js", ["code", "javascript"]),
  (".ts", ["code", "typescript"]),
  (".jsx", ["code", "javascript"]),
  (".tsx", ["code", "typescript"]),
  (".html", ["code", "web"]),
  (".css", ["code", "web"]),
  (".java", ["code", "java"]),
  (".cpp", ["code", "cpp"]),
  (".c", ["code", "c"]),
  (".h", ["code", "c"]),
  (".go", ["code", "go"]),
  (".rs", ["code", "rust"]),
  (".rb", ["code", "ruby"]),
  (".php", ["code", "php"]),
  (".swift", ["code", "swift"]),
  (".kt", ["code", "kotlin"]),
  (".sh", ["code", "shell"]),
  (".bash", ["code", "shell"]),
  (".sql", ["code", "database"]),
  (".r", ["code", "r"]),
  (".m", ["code", "matlab"]),
  (".zip", ["archive"]),
  (".tar", ["archive"]),
  (".gz", ["archive"]),
  (".bz2", ["archive"]),
  (".xz", ["archive"]),
  (".7z", ["archive"]),
  (".rar", ["archive"]),
  (".iso", ["archive", "disk-image"]),
  (".dmg", ["archive", "disk-image"]),
  (".json", ["data"]),
  (".xml", ["data"]),
  (".yaml", ["data"]),
  (".yml", ["data"]),
  (".toml", ["data"]),
  (".ini", ["data", "config"]),
  (".cfg", ["data", "config"]),
  (".conf", ["data", "config"]),
  (".db", ["data", "database"]),
  (".sqlite", ["data", "database"]),
  (".sqlite3", ["data", "database"]),
  (".ttf", ["font"]),
  (".otf", ["font"]),
  (".woff", ["font"]),
  (".woff2", ["font"]),
  (".srt", ["subtitle"]),
  (".vtt", ["subtitle"]),
  (".ass", ["subtitle"]),
  (".ssa", ["subtitle"]),
  (".sub", ["subtitle"]),
  (".psd", ["design", "photoshop"]),
  (".ai", ["design", "illustrator"]),
  (".sketch", ["design"]),
  (".fig", ["design"]),
  (".blend", ["3d"]),
  (".obj", ["3d"]),
  (".fbx", ["3d"]),
  (".stl", ["3d"]),
  (".exe", ["executable"]),
  (".msi", ["executable", "installer"]),
  (".deb", ["executable", "installer"]),
  (".rpm", ["executable", "installer"]),
  (".apk", ["executable", "mobile"]),
  (".app", ["executable"]),
  (".dll", ["system"]),
  (".so", ["system"]),
  (".dylib", ["system"])]

/-- `categorizer.SIZE_LARGE_GB`. -/
def SIZE_LARGE_GB : Nat := 1

/-- `categorizer.SIZE_HUGE_GB`. -/
def SIZE_HUGE_GB : Nat := 10

/-- `categorizer.OLD_THRESHOLD_DAYS` (3 years). -/
def OLD_THRESHOLD_DAYS : Nat := 365 * 3

/-- Python `pathlib.Path(name).suffix` for a bare file name (the call sites
pass names without path separators): the final dot and what follows it,
empty when the dot is absent, leading, or trailing. -/
def pySuffix (name : String) : String :=
  match name.data.reverse.findIdx? (· = '.') with
  | none => ""
  | some ridx =>
    let i := name.data.length - 1 - ridx
    if 0 < i ∧ i < name.data.length - 1 then ⟨name.data.drop i⟩ else ""

/-- Python `s.lower()` (the tags and keywords compared are ASCII). -/
def pyLower (s : String) : String := ⟨s.data.map Char.toLower⟩

/-- Contiguous-substring search on character lists. -/
def containsSubAux (kw : List Char) : List Char → Bool
  | [] => kw.isPrefixOf []
  | c :: t => kw.isPrefixOf (c :: t) || containsSubAux kw t

/-- Python `kw in s` substring membership. -/
def pyContainsSub (s kw : String) : Bool := containsSubAux kw.data s.data

/-- `categorizer.categorize_file`. `parse` abstracts the external `datetime`
library: it turns an ISO-8601 `modified_at` string into the whole-day age
`(now - mtime).days` at evaluation time, `none` on a parse error. The
Python function accumulates tags in a `set` and returns `sorted(tags)`;
the set union is modelled as list concatenation followed by `dedup`, and
`sorted` as a merge sort on strings. Comparisons `size_gb >= k` are exact
here (Python divides in binary floating point, which is exact for sizes
below 2^53 divided by the power of two 1024^3). -/
def categorize_file (parse : String → Option Int) (filename : String)
    (mime_type : Option String) (size : Nat) (modified_at : Option String) :
    List String :=
  let ext := pyLower (pySuffix filename)
  let tags : List String :=
    match EXTENSION_CATEGORIES.find? (fun e => e.1 = ext) with
    | some e => e.2
    | none => []
  let tags := tags ++
    (match mime_type with
     | none => []
     | some m =>
       if m = "" then []  -- Python `if mime_type:` is false on ""
       else if pyStartsWith m "video/" then ["media", "video"]
       else if pyStartsWith m "audio/" then ["media", "audio"]
       else if pyStartsWith m "image/" then ["media", "image"]
       else if pyStartsWith m "text/" then ["text"]
       else if m = "application/pdf" then ["document"]
       else [])
  let tags := tags ++
    (if SIZE_HUGE_GB * 1073741824 ≤ size then ["huge", "large"]
     else if SIZE_LARGE_GB * 1073741824 ≤ size then ["large"]
     else if size = 0 then ["empty"]
     else [])
  let tags := tags ++
    (match modified_at with
     | none => []
     | some m =>
       if m = "" then []  -- Python `if modified_at:` is false on ""
       else
         match parse m with
         | none => []  -- ValueError / TypeError caught
         | some ageDays => if OLD_THRESHOLD_DAYS < ageDays then ["old"] else [])
  let nameLower := pyLower filename
  let tags := tags ++ (if pyStartsWith nameLower "." then ["hidden"] else [])
  let tags := tags ++
    (if ["backup", "bak", "old", "copy"].any (pyContainsSub nameLower) then ["backup"] else [])
  let tags := tags ++
    (if ["temp", "tmp", "cache"].any (pyContainsSub nameLower) then ["temporary"] else [])
  let tags := tags ++
    (if ["readme", "changelog", "license", "contributing"].any (pyContainsSub nameLower)
     then ["documentation"] else [])
  let tags := tags ++
    (if ["screenshot", "screen shot", "capture"].any (pyContainsSub nameLower)
     then ["screenshot"] else [])
  tags.dedup.mergeSort (fun a b => a ≤ b)

-- ═══════════════════════ database.py — catalog store ════════════════════

/-- One row of the `files` table (`database.SCHEMA`). `path` is `UNIQUE`;
the surrogate `id` is omitted and rows are keyed by `path` (see header). -/
structure FileRow where
  path : String
  name : String
  parent_path : Option String
  is_directory : Bool
  size : Nat
  mime_type : Option String
  file_hash : Option String
  created_at : Option String
  modified_at : Option String
  indexed_at : String
  full_text : Option String
deriving Repr, DecidableEq

/-- The catalog: the `files`, `file_tags` and `file_metadata` tables. Tag
and metadata rows are keyed by the owning file's path (`file_id` is in
bijection with `path` while the file row exists); the constant
`tag_type='rule'` column of the scanner's tags is omitted. -/
structure Catalog where
  files : List FileRow
  tags : List (String × String)
  metadata : List (String × String)
deriving Repr, DecidableEq

/-- The empty catalog. -/
def Catalog.empty : Catalog := ⟨[], [], []⟩

/-- Row at a path (well-defined on catalogs with unique paths). -/
def Catalog.lookup (c : Catalog) (p : String) : Option FileRow :=
  c.files.find? (fun r => r.path = p)

/-- `path` is `UNIQUE`: the invariant the schema enforces. -/
def Catalog.pathsUnique (c : Catalog) : Prop :=
  (c.files.map (·.path)).Nodup

/-- SQLite `INSERT OR REPLACE INTO files`: a conflicting row (same `path`)
is deleted first, and with `foreign_keys=ON` that internal delete cascades
to the old row's `file_tags` and `file_metadata` rows (new surrogate id). -/
def insertOrReplaceFile (r : FileRow) (c : Catalog) : Catalog :=
  let existed := c.files.any (fun x => x.path = r.path)
  { files := r :: c.files.filter (fun x => x.path ≠ r.path),
    tags := if existed then c.tags.filter (fun t => t.1 ≠ r.path) else c.tags,
    metadata := if existed then c.metadata.filter (fun m => m.1 ≠ r.path) else c.metadata }

/-- `scanner._flush_batch_phase1`: `executemany` of `INSERT OR REPLACE`. -/
def flushBatch (c : Catalog) (batch : List FileRow) : Catalog :=
  batch.foldl (fun c r => insertOrReplaceFile r c) c

/-- `DELETE FROM files WHERE path = ?` with `foreign_keys=ON`: the declared
`ON DELETE CASCADE` removes the file's tag and metadata rows. -/
def deleteFileCascade (c : Catalog) (p : String) : Catalog :=
  { files := c.files.filter (fun r => r.path ≠ p),
    tags := c.tags.filter (fun t => t.1 ≠ p),
    metadata := c.metadata.filter (fun m => m.1 ≠ p) }

/-- `INSERT OR IGNORE INTO file_tags (file_id, tag)` under the
`UNIQUE(file_id, tag)` constraint. -/
def insertTagIgnore (c : Catalog) (p tag : String) : Catalog :=
  if c.tags.any (fun t => t.1 = p ∧ t.2 = tag) then c
  else { c with tags := c.tags ++ [(p, tag)] }

-- ═══════════════════════ scanner.py — Phase 1 fast index ════════════════

/-- Scan progress: the `scanner._scan_state` dictionary. -/
structure ScanState where
  running : Bool
  scan_id : Option Nat
  phase : String
  files_scanned : Nat
  files_added : Nat
  files_updated : Nat
  files_removed : Nat
  files_enriched : Nat
  files_to_enrich : Nat
  errors : Nat
  total_estimate : Nat
  current_source : String
  started_at : Option String
  error_log : List String
deriving Repr, DecidableEq

/-- A `stat` result for a remote entry, with the timestamps already
rendered to ISO-8601 UTC strings (the `datetime.fromtimestamp(...)
.isoformat()` rendering is injective and is absorbed into the model). -/
structure RemoteStat where
  size : Nat
  mtimeIso : String
  ctimeIso : String
deriving Repr, DecidableEq

/-- The remote share as the SMB layer presents it to one scan: the
`smbclient.walk` traversal (pairs of SMB directory path and contained file
names; the unused `dirnames` component is dropped) and the `stat` results
(`none` models not-found / permission-denied, which `smb_fs.stat` turns
into `None`). Both scans of an unchanged share observe the same value. -/
structure Remote where
  walkEntries : List (String × List String)
  statMap : List (String × RemoteStat)
deriving Repr, DecidableEq

/-- `smb_fs.stat` against the remote model. -/
def statOf (R : Remote) (p : String) : Option RemoteStat :=
  (R.statMap.find? (fun e => e.1 = p)).map (·.2)

/-- The collaborators and configuration one `_phase1_index` call closes
over: `get_mime_type` (the external `mimetypes` table with its
`application/octet-stream` default), the `datetime` age parser used by the
categorizer, `settings.scan_batch_size`, the source, the remote share, and
the `datetime.now` ISO snapshot written into `indexed_at`. -/
structure P1Ctx where
  mimeOf : String → String
  parse : String → Option Int
  batchSize : Nat
  source : SMBSource
  R : Remote
  nowIso : String

/-- The loop state of `_phase1_index`: the connection's visible catalog,
the pending batch, the `seen_paths` set and the scan-state dictionary. -/
structure P1State where
  cat : Catalog
  batch : List FileRow
  seen : List String
  st : ScanState
deriving Repr

/-- The `(path, modified_at)` incremental-skip dictionary loaded by
`_phase1_index`; built by a dict comprehension, so a duplicated key keeps
its last row. -/
def loadExisting (c : Catalog) (label : String) : List (String × Option String) :=
  (c.files.filter (fun r => likeMatch ("/" ++ label ++ "/%").data r.path.data)).map
    (fun r => (r.path, r.modified_at))

/-- Dictionary lookup in the skip set (last binding wins). -/
def existingLookup (m : List (String × Option String)) (p : String) :
    Option (Option String) :=
  (m.reverse.find? (fun e => e.1 = p)).map (·.2)

/-- The body of `for filename in filenames` in `_phase1_index`: stat the
file, skip unchanged rows in incremental mode, append the Phase-1 row
(hash and text left `NULL`), count added/updated, and flush a full batch.
The `categorize_file` call at this point of the source computes `tags`
that are never used (tagging happens in `_apply_tags_bulk`), so it leaves
no trace here. -/
def p1FileStep (ctx : P1Ctx) (existing : List (String × Option String))
    (full : Bool) (dirpath relDir : String) (s : P1State) (filename : String) :
    P1State :=
  let smbFile := pyRstripChar bslashChar dirpath ++ "\\" ++ filename
  let relPath := smb_to_relative smbFile ctx.source
  let s := { s with seen := s.seen ++ [relPath],
                    st := { s.st with files_scanned := s.st.files_scanned + 1 } }
  match statOf ctx.R smbFile with
  | none => s
  | some info =>
    if ¬ full ∧ existingLookup existing relPath = some (some info.mtimeIso) then s
    else
      let row : FileRow :=
        { path := relPath, name := filename, parent_path := some relDir,
          is_directory := false, size := info.size,
          mime_type := some (ctx.mimeOf smbFile), file_hash := none,
          created_at := some info.ctimeIso, modified_at := some info.mtimeIso,
          indexed_at := ctx.nowIso, full_text := none }
      let s := { s with batch := s.batch ++ [row] }
      let s :=
        if (existingLookup existing relPath).isSome then
          { s with st := { s.st with files_updated := s.st.files_updated + 1 } }
        else
          { s with st := { s.st with files_added := s.st.files_added + 1 } }
      if ctx.batchSize ≤ s.batch.length then
        { s with cat := flushBatch s.cat s.batch, batch := [] }
      else s

/-- One iteration of `for dirpath, dirnames, filenames in walk(source)`:
record the directory row, then process its files. -/
def p1Entry (ctx : P1Ctx) (existing : List (String × Option String))
    (full : Bool) (s : P1State) (entry : String × List String) : P1State :=
  let dirpath := entry.1
  let label := ctx.source.effLabel
  let relDir := smb_to_relative dirpath ctx.source
  let parentDir : Option String :=
    if relDir = "/" ++ label then none
    else
      let p := pyBeforeLastComponent '/' relDir
      some (if p = "" then "/" ++ label else p)
  let s := { s with seen := s.seen ++ [relDir] }
  let dirMtime := (statOf ctx.R dirpath).map (·.mtimeIso)
  let dirName :=
    let n := pyLastComponent '/' (pyReplaceChar bslashChar '/' dirpath)
    if n = "" then label else n
  let row : FileRow :=
    { path := relDir, name := dirName, parent_path := parentDir,
      is_directory := true, size := 0, mime_type := some "inode/directory",
      file_hash := none, created_at := dirMtime, modified_at := dirMtime,
      indexed_at := ctx.nowIso, full_text := none }
  let s := { s with batch := s.batch ++ [row] }
  entry.2.foldl (p1FileStep ctx existing full dirpath relDir) s

/-- `scanner._apply_tags_bulk`: re-derive rule tags for every file row
under the source's label and `INSERT OR IGNORE` them. -/
def apply_tags_bulk (parse : String → Option Int) (label : String)
    (c : Catalog) : Catalog :=
  let rows := c.files.filter (fun r =>
    likeMatch ("/" ++ label ++ "/%").data r.path.data ∧ r.is_directory = false)
  rows.foldl (fun c r =>
    (categorize_file parse r.name r.mime_type r.size r.modified_at).foldl
      (fun c t => insertTagIgnore c r.path t) c) c

/-- `scanner._remove_stale`: delete rows under the label whose path the
walk did not record in `seen_paths`, plus the unseen source root. -/
def remove_stale (c : Catalog) (st : ScanState) (label : String)
    (seen : List String) : Catalog × ScanState :=
  let allIndexed := (c.files.filter (fun r =>
    likeMatch ("/" ++ label ++ "/%").data r.path.data)).map (·.path)
  let c1 := allIndexed.foldl
    (fun c p => if seen.contains p then c else deleteFileCascade c p) c
  let removed := (allIndexed.filter (fun p => ¬ seen.contains p)).length
  let rootEntry := "/" ++ label
  let c2 := if seen.contains rootEntry then c1 else deleteFileCascade c1 rootEntry
  (c2, { st with files_removed := st.files_removed + removed })

/-- `scanner._phase1_index` for one source. `cancelAt = some k` models the
cancel flag becoming set at the k-th directory boundary (the only poll
point of Phase 1), which breaks the walk and suppresses stale removal;
`none` is an uncancelled scan. `register_source` is network I/O and is
modelled as succeeding (its failure branch leaves the catalog untouched
and only appends to the error log). Returns the catalog, the scan state
and `seen_paths`. -/
def phase1_index (ctx : P1Ctx) (cancelAt : Option Nat) (full : Bool)
    (cat : Catalog) (st : ScanState) : Catalog × ScanState × List String :=
  let label := ctx.source.effLabel
  let st := { st with current_source := label, phase := "indexing" }
  let existing := if full then [] else loadExisting cat label
  let entries := match cancelAt with
    | none => ctx.R.walkEntries
    | some k => ctx.R.walkEntries.take k
  let s := entries.foldl (p1Entry ctx existing full) ⟨cat, [], [], st⟩
  let cat2 := if s.batch ≠ [] then flushBatch s.cat s.batch else s.cat
  let cat3 := apply_tags_bulk ctx.parse label cat2
  let cancelled := cancelAt.isSome
  if full ∧ ¬ cancelled then
    let r := remove_stale cat3 s.st label s.seen
    (r.1, r.2, s.seen)
  else (cat3, s.st, s.seen)

-- ═══════════════════════ scanner.py — Phase 2 enrichment ════════════════

/-- The optional fields a `_enrich_file` result carries back to the main
thread (`file_id`/`path` are the target row's own keys). -/
structure EnrichResult where
  file_hash : Option String
  full_text : Option String
  metadata : Option String
deriving Repr, DecidableEq

/-- The `UPDATE files SET file_hash = COALESCE(?, file_hash), full_text =
COALESCE(?, full_text) WHERE id = ?` statement of `_phase2_enrich`. -/
def updateHashText (p : String) (res : EnrichResult) (c : Catalog) : Catalog :=
  { c with files := c.files.map (fun r =>
      if r.path = p then
        { r with file_hash := res.file_hash.orElse (fun _ => r.file_hash),
                 full_text := res.full_text.orElse (fun _ => r.full_text) }
      else r) }

/-- `INSERT OR REPLACE INTO file_metadata (file_id, metadata)`. -/
def insertOrReplaceMeta (p m : String) (c : Catalog) : Catalog :=
  { c with metadata := (p, m) :: c.metadata.filter (fun e => e.1 ≠ p) }

/-- `scanner._phase2_enrich`: select the rows with `is_directory = 0 AND
file_hash IS NULL`, enrich each through the worker (`enrich` abstracts
`_enrich_file`'s network and extractor I/O: `none` is a worker that
returned `None` or raised), and apply each result's updates. Progress
counters and the periodic commit cadence have no catalog effect and are
omitted. -/
def phase2_enrich (enrich : FileRow → Option EnrichResult) (c : Catalog) :
    Catalog :=
  let targets := c.files.filter (fun r =>
    r.is_directory = false ∧ r.file_hash = none)
  targets.foldl (fun cc t =>
    match enrich t with
    | none => cc
    | some res =>
      let cc :=
        if res.file_hash.isSome ∨ res.full_text.isSome then
          updateHashText t.path res cc
        else cc
      match res.metadata with
      | some m => insertOrReplaceMeta t.path m cc
      | none => cc) c

-- ═══════════════════════ nas_manager.py — source manager ════════════════

/-- One entry of the persisted `nas_connection.json` sources list. The
`label` key is always written by `add_source` (as `label or share`), so it
is a plain field here and `src.get("label", src["share"])` reads it
directly. -/
structure SourceEntry where
  host : String
  share : String
  username : String
  password : String
  subfolder : String
  label : String
deriving Repr, DecidableEq

/-- The `source_id` the manager computes for a persisted entry
(`f"{host}/{share}{subfolder}".rstrip("/")`). -/
def entrySourceId (e : SourceEntry) : String :=
  pyRstripChar '/' (e.host ++ "/" ++ e.share ++ e.subfolder)

/-- Per-field encryption in `nas_manager.save_config`:
`if entry.get(k) and not is_encrypted(entry[k]): entry[k] = encrypt(...)`. -/
def encryptField (f : FernetModel) (v : String) : String :=
  if v ≠ "" ∧ ¬ is_encrypted v then encrypt f v else v

/-- `nas_manager.save_config`: what the rewritten file contains. -/
def save_config (f : FernetModel) (srcs : List SourceEntry) : List SourceEntry :=
  srcs.map (fun e =>
    { e with password := encryptField f e.password,
             username := encryptField f e.username })

/-- Per-field decryption in `nas_manager.load_config`
(`if src.get(k): src[k] = decrypt(src[k])`). -/
def decryptField (f : FernetModel) (v : String) : String :=
  if v ≠ "" then decrypt f v else v

/-- Does this stored entry trip the plaintext auto-migration check? -/
def entryNeedsResave (e : SourceEntry) : Bool :=
  (e.password ≠ "" && ¬ is_encrypted e.password) ||
    (e.username ≠ "" && ¬ is_encrypted e.username)

/-- `nas_manager.load_config` on an existing file: the decrypted in-memory
config, and the file as it stands afterwards (rewritten through
`save_config` when any stored credential was plaintext). -/
def load_config (f : FernetModel) (file : List SourceEntry) :
    List SourceEntry × List SourceEntry :=
  let config := file.map (fun e =>
    { e with password := decryptField f e.password,
             username := decryptField f e.username })
  (config, if file.any entryNeedsResave then save_config f config else file)

/-- `nas_manager.add_source`. The state is the persisted file (`none` when
`nas_connection.json` does not exist). Returns `((success, message), file
afterwards)`. The trailing `register_source` attempt is network I/O that
happens after persistence and cannot change the file, so it is not
modelled (its failure only swaps the returned message). -/
def add_source (f : FernetModel) (file : Option (List SourceEntry))
    (host share username password subfolder label : String) :
    (Bool × String) × Option (List SourceEntry) :=
  let loaded : List SourceEntry × Option (List SourceEntry) :=
    match file with
    | none => ([], none)
    | some entries =>
      let r := load_config f entries
      (r.1, some r.2)
  let config := loaded.1
  let file1 := loaded.2
  let sid := pyRstripChar '/' (host ++ "/" ++ share ++ subfolder)
  if config.any (fun e => entrySourceId e = sid) then
    ((false, "Source already exists: " ++ sid), file1)
  else
    let newEntry : SourceEntry :=
      ⟨host, share, username, password, subfolder,
       if label = "" then share else label⟩
    some (save_config f (config ++ [newEntry])) |>
      fun file2 => ((true, "Added source: " ++ (if label = "" then share else label)), file2)

/-- Result record of `nas_manager.remove_source`. -/
structure RemoveOutcome where
  success : Bool
  message : String
  purged_files : Nat
deriving Repr, DecidableEq

/-- The purge condition of `remove_source`:
`path LIKE '/<label>/%' OR path = '/<label>'`. -/
def purgeCond (label : String) (p : String) : Bool :=
  likeMatch ("/" ++ label ++ "/%").data p.data || p = ("/" ++ label)

/-- `nas_manager.remove_source`: drop every entry with the given
`source_id` from the file (remembering the last such entry's label), then
purge the catalog of tag, metadata and file rows under that label. -/
def remove_source (f : FernetModel) (file : Option (List SourceEntry))
    (cat : Catalog) (sid : String) :
    RemoveOutcome × Option (List SourceEntry) × Catalog :=
  match file with
  | none => (⟨false, "No config found", 0⟩, none, cat)
  | some entries =>
    let load := load_config f entries
    let config := load.1
    let file1 := load.2
    let removedLabel := config.foldl
      (fun acc e => if entrySourceId e = sid then some e.label else acc) none
    let kept := config.filter (fun e => entrySourceId e ≠ sid)
    if kept.length = config.length then
      (⟨false, "Source not found", 0⟩, some file1, cat)
    else
      let file2 := save_config f kept
      match removedLabel with
      | some lbl =>
        if lbl ≠ "" then
          -- ids of the file rows the three DELETE statements touch
          let ids := (cat.files.filter (fun r => purgeCond lbl r.path)).map (·.path)
          let cat' : Catalog :=
            { files := cat.files.filter (fun r => ¬ purgeCond lbl r.path),
              tags := cat.tags.filter (fun t => ¬ ids.contains t.1),
              metadata := cat.metadata.filter (fun m => ¬ ids.contains m.1) }
          (⟨true, "Removed source: " ++ sid, ids.length⟩, some file2, cat')
        else
          -- `if removed_label:` is false on the empty string: no purge
          (⟨true, "Removed source: " ++ sid, 0⟩, some file2, cat)
      | none => (⟨true, "Removed source: " ++ sid, 0⟩, some file2, cat)

-- ═══════════════════════ scanner.py — lifecycle controller ══════════════

/-- One row of the `scan_log` table. -/
structure ScanLogRow where
  started_at : String
  completed_at : Option String
  status : String
  files_scanned : Nat
  files_added : Nat
  files_updated : Nat
  files_removed : Nat
  errors : Nat
  error_log : Option String
deriving Repr, DecidableEq

/-- The reset dictionary `start_scan` installs before spawning the scan. -/
def freshScanState (nowIso : String) : ScanState :=
  { running := true, scan_id := none, phase := "indexing",
    files_scanned := 0, files_added := 0, files_updated := 0,
    files_removed := 0, files_enriched := 0, files_to_enrich := 0,
    errors := 0, total_estimate := 0, current_source := "",
    started_at := some nowIso, error_log := [] }

/-- The `INSERT INTO scan_log (started_at, status) VALUES (?, 'running')`
row (column defaults from the schema). -/
def newScanLogRow (nowIso : String) : ScanLogRow :=
  { started_at := nowIso, completed_at := none, status := "running",
    files_scanned := 0, files_added := 0, files_updated := 0,
    files_removed := 0, errors := 0, error_log := none }

/-- `scanner.start_scan` up to spawning the background thread: its effect
on the scan-state record, the cancel flag and the `scan_log` table, plus
the `error` field of the returned dictionary (`none` = scan started). The
new row's id is its 1-based position in the append-only table. -/
def start_scan (st : ScanState) (cancelFlag : Bool) (log : List ScanLogRow)
    (sources : List SMBSource) (nowIso : String) :
    Option String × ScanState × Bool × List ScanLogRow :=
  if st.running then
    (some "Scan already in progress", st, cancelFlag, log)
  else
    let st1 := freshScanState nowIso
    if sources.isEmpty then
      (some "No NAS sources configured. Use the setup wizard to add a source.",
        { st1 with running := false, phase := "" }, false, log)
    else
      (none, { st1 with scan_id := some (log.length + 1) }, false,
        log ++ [newScanLogRow nowIso])

-- ═══════════════════════ SHA-256 (hashlib.sha256) ═══════════════════════

/-- 2^32. -/
def pow32 : Nat := 4294967296

/-- Right rotation of a 32-bit word. -/
def rotr32 (n x : Nat) : Nat :=
  ((x >>> n) ||| (x <<< (32 - n))) % pow32

/-- The 64 SHA-256 round constants. -/
def sha256K : List Nat := [
  1116352408, 1899447441, 3049323471, 3921009573,
  961987163, 1508970993, 2453635748, 2870763221,
  3624381080, 310598401, 607225278, 1426881987,
  1925078388, 2162078206, 2614888103, 3248222580,
  3835390401, 4022224774, 264347078, 604807628,
  770255983, 1249150122, 1555081692, 1996064986,
  2554220882, 2821834349, 2952996808, 3210313671,
  3336571891, 3584528711, 113926993, 338241895,
  666307205, 773529912, 1294757372, 1396182291,
  1695183700, 1986661051, 2177026350, 2456956037,
  2730485921, 2820302411, 3259730800, 3345764771,
  3516065817, 3600352804, 4094571909, 275423344,
  430227734, 506948616, 659060556, 883997877,
  958139571, 1322822218, 1537002063, 1747873779,
  1955562222, 2024104815, 2227730452, 2361852424,
  2428436474, 2756734187, 3204031479, 3329325298]

/-- The SHA-256 initial hash value. -/
def sha256H0 : List Nat := [
  1779033703, 3144134277, 1013904242, 2773480762,
  1359893119, 2600822924, 528734635, 1541459225]

/-- Big-endian bytes of `n`, `k` bytes wide. -/
def natToBytesBE (k n : Nat) : List Nat :=
  match k with
  | 0 => []
  | k + 1 => natToBytesBE k (n / 256) ++ [n % 256]

/-- Tail-recursive list length with a strict accumulator (the dead `else`
of the self-comparison keeps kernel evaluation shallow). -/
def listLenGo (acc : Nat) : List Nat → Nat
  | [] => acc
  | _ :: t =>
    let a := acc + 1
    if a = a then listLenGo a t else 0

/-- List length, evaluated strictly. -/
def listLen (l : List Nat) : Nat := listLenGo 0 l

/-- Pack a byte list into one big-endian natural number, strictly.
`hashlib` is external C code; the model works on this packed form so that
evaluation runs on GMP arithmetic instead of deep list recursion. -/
def packBytesGo (acc : Nat) : List Nat → Nat
  | [] => acc
  | b :: t =>
    let a := acc * 256 + b
    if a = a then packBytesGo a t else 0

/-- A byte list packed into one big-endian natural number. -/
def packBytes (msg : List Nat) : Nat := packBytesGo 0 msg

/-- Byte length of the SHA-256-padded message (a multiple of 64). -/
def sha256PadLen (len : Nat) : Nat :=
  len + 1 + (119 - len % 64) % 64 + 8

/-- The padded message, packed: the message bytes, `0x80`, zero bytes to
56 mod 64, and the bit length in the trailing 8 bytes. -/
def sha256PackedPad (len v : Nat) : Nat :=
  (v * 256 + 0x80) * 256 ^ ((119 - len % 64) % 64 + 8) + len * 8

/-- Extend 16 schedule words to 64; the accumulator keeps the words most
recent first, so `acc.getD i 0` is `w[t-1-i]`. -/
def sha256Extend : Nat → List Nat → List Nat
  | 0, acc => acc
  | n + 1, acc =>
    let w2 := acc.getD 1 0
    let w7 := acc.getD 6 0
    let w15 := acc.getD 14 0
    let w16 := acc.getD 15 0
    let s0 := (rotr32 7 w15) ^^^ (rotr32 18 w15) ^^^ (w15 >>> 3)
    let s1 := (rotr32 17 w2) ^^^ (rotr32 19 w2) ^^^ (w2 >>> 10)
    sha256Extend n (((w16 + s0 + w7 + s1) % pow32) :: acc)

/-- The working variables of the compression function. -/
structure Sha256Regs where
  a : Nat
  b : Nat
  c : Nat
  d : Nat
  e : Nat
  f : Nat
  g : Nat
  h : Nat

/-- One compression round. -/
def sha256Round (r : Sha256Regs) (kw : Nat × Nat) : Sha256Regs :=
  let S1 := (rotr32 6 r.e) ^^^ (rotr32 11 r.e) ^^^ (rotr32 25 r.e)
  let ch := (r.e &&& r.f) ^^^ ((pow32 - 1 - r.e) &&& r.g)
  let temp1 := (r.h + S1 + ch + kw.1 + kw.2) % pow32
  let S0 := (rotr32 2 r.a) ^^^ (rotr32 13 r.a) ^^^ (rotr32 22 r.a)
  let maj := (r.a &&& r.b) ^^^ (r.a &&& r.c) ^^^ (r.b &&& r.c)
  let temp2 := (S0 + maj) % pow32
  ⟨(temp1 + temp2) % pow32, r.a, r.b, r.c, (r.d + temp1) % pow32, r.e, r.f, r.g⟩

/-- Compress one block (given as its 16 big-endian words) into the
running hash (8 words). -/
def sha256Block (hs : List Nat) (ws16 : List Nat) : List Nat :=
  let ws := (sha256Extend 48 ws16.reverse).reverse
  let init : Sha256Regs :=
    ⟨hs.getD 0 0, hs.getD 1 0, hs.getD 2 0, hs.getD 3 0,
     hs.getD 4 0, hs.getD 5 0, hs.getD 6 0, hs.getD 7 0⟩
  let r := (sha256K.zip ws).foldl sha256Round init
  [(hs.getD 0 0 + r.a) % pow32, (hs.getD 1 0 + r.b) % pow32,
   (hs.getD 2 0 + r.c) % pow32, (hs.getD 3 0 + r.d) % pow32,
   (hs.getD 4 0 + r.e) % pow32, (hs.getD 5 0 + r.f) % pow32,
   (hs.getD 6 0 + r.g) % pow32, (hs.getD 7 0 + r.h) % pow32]

/-- The 16 words of block `b` of a packed padded message of `W` words. -/
def blockWords (padded W b : Nat) : List Nat :=
  (List.range 16).map (fun t => (padded >>> (32 * (W - 1 - (16 * b + t)))) % pow32)

/-- Process the last `n` of `B` blocks in ascending order. The
self-comparison `if` forces each intermediate hash to numerals as the
loop advances, which keeps kernel evaluation depth bounded by one block
(it never takes the dead `else`). -/
def sha256Go (padded W B : Nat) : Nat → List Nat → List Nat
  | 0, hs => hs
  | n + 1, hs =>
    let hs' := sha256Block hs (blockWords padded W (B - (n + 1)))
    if hs' = hs' then sha256Go padded W B n hs' else []

/-- SHA-256 of a byte list, as the 8 words of the digest. -/
def sha256Words (msg : List Nat) : List Nat :=
  let len := listLen msg
  let padded := sha256PackedPad len (packBytes msg)
  let W := sha256PadLen len / 4
  let B := sha256PadLen len / 64
  sha256Go padded W B B sha256H0

/-- Lowercase hexadecimal digit. -/
def hexDigit (n : Nat) : Char :=
  "0123456789abcdef".data.getD n '0'

/-- A 32-bit word as 8 lowercase hex characters. -/
def wordToHex (w : Nat) : List Char :=
  (natToBytesBE 4 w).flatMap (fun b => [hexDigit (b / 16), hexDigit (b % 16)])

/-- `hashlib.sha256(msg).hexdigest()`. -/
def sha256Hex (msg : List Nat) : String :=
  ⟨(sha256Words msg).flatMap wordToHex⟩

/-- `str(n).encode()`: the ASCII bytes of the decimal rendering. -/
def decimalBytes (n : Nat) : List Nat :=
  (toString n).data.map Char.toNat

-- ═══════════════════════ scanner.py — content fingerprint ═══════════════

/-- A file opened `"rb"` over SMB: its bytes and the read position. -/
structure PyFile where
  bytes : List Nat
  pos : Nat

/-- `f.read(n)`: up to `n` bytes from the position, which advances. -/
def fileRead (f : PyFile) (n : Nat) : List Nat × PyFile :=
  ((f.bytes.drop f.pos).take n,
   { f with pos := min (f.pos + n) (listLen f.bytes) })

/-- `f.seek(-back, 2)`: position `back` bytes before the end; a negative
resulting position raises `OSError` (`none`). -/
def fileSeekFromEnd (f : PyFile) (back : Nat) : Option PyFile :=
  if back ≤ listLen f.bytes then some { f with pos := listLen f.bytes - back }
  else none

/-- Python `s[:n]` on a string. -/
def pyTakeChars (n : Nat) (s : String) : String :=
  ⟨s.data.take n⟩

/-- `scanner._compute_hash`: SHA-256 over the decimal file size, a leading
sample of `hash_sample_size_kb * 1024` bytes, and — only when the recorded
size exceeds twice the sample — a trailing sample of the same width;
truncated to 16 hex characters. `none` models the `except` branch (an
I/O error, or the seek failing), which makes the hash `None`. -/
def compute_hash (sampleKb : Nat) (file_size : Nat) (content : List Nat) :
    Option String :=
  let sample_size := sampleKb * 1024
  let f : PyFile := ⟨content, 0⟩
  let r1 := fileRead f sample_size
  let acc := decimalBytes file_size ++ r1.1
  if sample_size * 2 < file_size then
    match fileSeekFromEnd r1.2 sample_size with
    | none => none
    | some f2 =>
      let r2 := fileRead f2 sample_size
      some (pyTakeChars 16 (sha256Hex (acc ++ r2.1)))
  else
    some (pyTakeChars 16 (sha256Hex acc))

/-- Modelled from the spec: the fingerprint as §4.6 step 2 and claim C2
word it — SHA-256 over `decimal(size) ‖ first size bytes` when
`size ≤ 2N`, else `decimal(size) ‖ first N bytes ‖ last N bytes`,
truncated to 16 hex characters. -/
def claimFingerprint (sampleKb : Nat) (size : Nat) (content : List Nat) :
    String :=
  let N := sampleKb * 1024
  let body :=
    if size ≤ 2 * N then content.take size
    else content.take N ++ content.drop (size - N)
  pyTakeChars 16 (sha256Hex (decimalBytes size ++ body))

/-- The fingerprint the code actually computes, in closed form: when
`size ≤ 2N` only the first `min size N` bytes enter the hash. -/
def amendedFingerprint (sampleKb : Nat) (size : Nat) (content : List Nat) :
    String :=
  let N := sampleKb * 1024
  let body :=
    if size ≤ 2 * N then content.take (min size N)
    else content.take N ++ content.drop (size - N)
  pyTakeChars 16 (sha256Hex (decimalBytes size ++ body))

-- ═══════════════════════ scanner.py — the Phase-2 worker ════════════════

/-- The value `scanner._enrich_file` passes as the second argument of
`relative_to_smb`. The function's signature declares `sources:
list[SMBSource]`, but the call site in the worker passes one bare
`SMBSource` from its own loop over the configured sources. -/
inductive PySourcesArg where
  | ofList : List SMBSource → PySourcesArg
  | ofSingle : SMBSource → PySourcesArg

/-- `smb_fs.relative_to_smb` under Python's dynamic semantics: its body
runs `for source in sources`, and an `SMBSource` dataclass instance
defines neither `__iter__` nor `__getitem__`, so iteration raises
`TypeError` before anything else happens. -/
def relative_to_smb_dyn (relative_path : String) (sources : PySourcesArg) :
    Except String (Option String) :=
  match sources with
  | .ofList ss => .ok (relative_to_smb relative_path ss)
  | .ofSingle _ => .error "TypeError: SMBSource object is not iterable"

/-- The source-resolution loop of `_enrich_file`: per configured source it
tries `relative_to_smb(path, source)` inside `try/except Exception:
continue`, and takes the first truthy result. -/
def enrich_resolve : List SMBSource → String → Option (String × SMBSource)
  | [], _ => none
  | s :: rest, path =>
    match relative_to_smb_dyn path (.ofSingle s) with
    | .error _ => enrich_resolve rest path
    | .ok none => enrich_resolve rest path
    | .ok (some sp) =>
      if sp ≠ "" then some (sp, s) else enrich_resolve rest path

/-- `scanner._enrich_file` as far as the hash claim reaches: resolve the
logical path to an SMB path (returning `None` when no source matches),
then fingerprint the file's bytes (`readBytes` abstracts the SMB read).
The text- and media-extraction steps hand off to the external extractor
collaborators and contribute nothing to `file_hash`. -/
def enrich_file (sampleKb : Nat) (readBytes : String → List Nat)
    (sources : List SMBSource) (row : FileRow) : Option EnrichResult :=
  match enrich_resolve sources row.path with
  | none => none
  | some (smbPath, _) =>
    some { file_hash := compute_hash sampleKb row.size (readBytes smbPath),
           full_text := none, metadata := none }

-- ═══════════════════════ reachable catalog states (claim C5) ════════════

/-- The catalog-mutating scan operations: a Phase-1 pass (possibly
cancelled), standalone tag application, standalone stale-row removal, and
a Phase-2 enrichment pass. -/
inductive ScanOp where
  | phase1 (ctx : P1Ctx) (cancelAt : Option Nat) (full : Bool) (st : ScanState)
  | applyTags (parse : String → Option Int) (label : String)
  | removeStale (st : ScanState) (label : String) (seen : List String)
  | phase2 (enrich : FileRow → Option EnrichResult)

/-- Effect of one scan operation on the catalog. -/
def ScanOp.run (c : Catalog) : ScanOp → Catalog
  | .phase1 ctx cancelAt full st => (phase1_index ctx cancelAt full c st).1
  | .applyTags parse label => apply_tags_bulk parse label c
  | .removeStale st label seen => (remove_stale c st label seen).1
  | .phase2 enrich => phase2_enrich enrich c

/-- Directory-row invariant of claim C5: every directory row has zero
size, no fingerprint and no extracted text. -/
def dirInv (c : Catalog) : Prop :=
  ∀ r ∈ c.files, r.is_directory = true →
    r.size = 0 ∧ r.file_hash = none ∧ r.full_text = none

instance : DecidablePred dirInv := fun c =>
  inferInstanceAs (Decidable (∀ r ∈ c.files, _))

-- ═══════════════ Phase 1 net effect (specification of the loop) ═════════

/-- The row the file loop of `_phase1_index` stages for one file, paired
with its updated-vs-added flag; `none` when the file is skipped (failed
`stat`, or unchanged in incremental mode). Mirrors `p1FileStep`. -/
def genFileRow (ctx : P1Ctx) (existing : List (String × Option String))
    (full : Bool) (dirpath relDir : String) (filename : String) :
    Option (FileRow × Bool) :=
  let smbFile := pyRstripChar bslashChar dirpath ++ "\\" ++ filename
  let relPath := smb_to_relative smbFile ctx.source
  match statOf ctx.R smbFile with
  | none => none
  | some info =>
    if ¬ full ∧ existingLookup existing relPath = some (some info.mtimeIso) then none
    else
      some ({ path := relPath, name := filename, parent_path := some relDir,
              is_directory := false, size := info.size,
              mime_type := some (ctx.mimeOf smbFile), file_hash := none,
              created_at := some info.ctimeIso, modified_at := some info.mtimeIso,
              indexed_at := ctx.nowIso, full_text := none },
            (existingLookup existing relPath).isSome)

/-- The directory row `_phase1_index` stages for one walk entry;
mirrors `p1Entry`. -/
def genDirRow (ctx : P1Ctx) (entry : String × List String) : FileRow :=
  let dirpath := entry.1
  let label := ctx.source.effLabel
  let relDir := smb_to_relative dirpath ctx.source
  { path := relDir,
    name :=
      let n := pyLastComponent '/' (pyReplaceChar bslashChar '/' dirpath)
      if n = "" then label else n,
    parent_path :=
      if relDir = "/" ++ label then none
      else
        let p := pyBeforeLastComponent '/' relDir
        some (if p = "" then "/" ++ label else p),
    is_directory := true, size := 0, mime_type := some "inode/directory",
    file_hash := none,
    created_at := (statOf ctx.R dirpath).map (fun i => i.mtimeIso),
    modified_at := (statOf ctx.R dirpath).map (fun i => i.mtimeIso),
    indexed_at := ctx.nowIso, full_text := none }

/-- The file rows (with flags) one walk entry stages. -/
def genEntryFiles (ctx : P1Ctx) (existing : List (String × Option String))
    (full : Bool) (entry : String × List String) : List (FileRow × Bool) :=
  entry.2.filterMap
    (genFileRow ctx existing full entry.1 (smb_to_relative entry.1 ctx.source))

/-- All rows one walk entry stages, in write order. -/
def genEntryRows (ctx : P1Ctx) (existing : List (String × Option String))
    (full : Bool) (entry : String × List String) : List FileRow :=
  genDirRow ctx entry :: (genEntryFiles ctx existing full entry).map (fun rb => rb.1)

/-- All rows a Phase-1 walk stages, in write order. -/
def genRows (ctx : P1Ctx) (existing : List (String × Option String))
    (full : Bool) (entries : List (String × List String)) : List FileRow :=
  entries.flatMap (genEntryRows ctx existing full)

/-- The added/updated flags of all staged file rows. -/
def genFlags (ctx : P1Ctx) (existing : List (String × Option String))
    (full : Bool) (entries : List (String × List String)) : List Bool :=
  entries.flatMap (fun e => (genEntryFiles ctx existing full e).map (fun rb => rb.2))

/-- How many staged file rows are new (`files_added`). -/
def countAdded (flags : List Bool) : Nat := (flags.filter (fun b => b = false)).length

/-- How many staged file rows replace an existing path (`files_updated`). -/
def countUpdated (flags : List Bool) : Nat := (flags.filter (fun b => b = true)).length

/-- The logical paths one walk entry records in `seen_paths`, in order. -/
def seenOfEntry (ctx : P1Ctx) (entry : String × List String) : List String :=
  smb_to_relative entry.1 ctx.source ::
    entry.2.map (fun fn =>
      smb_to_relative (pyRstripChar bslashChar entry.1 ++ "\\" ++ fn) ctx.source)

/-- All logical paths a walk records in `seen_paths`. -/
def seenOf (ctx : P1Ctx) (entries : List (String × List String)) : List String :=
  entries.flatMap (seenOfEntry ctx)

-- ═════════════════════════════ THEOREMS ═════════════════════════════════

-- ─── generic string facts used below ───

theorem strMk_data (s : String) : String.mk s.data = s := rfl

theorem strAppend_data (a b : String) : (a ++ b).data = a.data ++ b.data :=
  String.data_append a b

theorem strNe_empty_of_data_cons (s : String) (c : Char) (t : List Char)
    (h : s.data = c :: t) : s ≠ "" := by
  intro he
  rw [he] at h
  simp at h

theorem pyStartsWith_append (p t : String) : pyStartsWith (p ++ t) p = true := by
  unfold pyStartsWith
  rw [strAppend_data]
  exact List.isPrefixOf_iff_prefix.mpr (List.prefix_append _ _)

theorem pyDropChars_append (p t : String) :
    pyDropChars p.length (p ++ t) = t := by
  unfold pyDropChars
  rw [strAppend_data, String.length]
  rw [List.drop_left]

-- ─── C6: credential round-trip ───

/-- C6: for every UTF-8 string `x`, `decrypt (encrypt x) = x`; and for
every non-empty `x`, `is_encrypted (encrypt x)` holds (the ciphertext
carries the `enc:` marker). -/
theorem C6_encrypt_roundtrip (f : FernetModel) (x : String) :
    decrypt f (encrypt f x) = x ∧
      (x ≠ "" → is_encrypted (encrypt f x) = true) := by
  by_cases hx : x = ""
  · subst hx
    constructor
    · simp [encrypt, decrypt]
    · intro h
      exact absurd rfl h
  · have henc : encrypt f x = encMarker ++ f.enc x := by
      unfold encrypt
      rw [if_neg hx]
    have hne : encMarker ++ f.enc x ≠ "" := by
      apply strNe_empty_of_data_cons _ 'e' (['n', 'c', ':'] ++ (f.enc x).data)
      rw [strAppend_data]
      rfl
    have hsw : pyStartsWith (encMarker ++ f.enc x) encMarker = true :=
      pyStartsWith_append _ _
    constructor
    · rw [henc]
      unfold decrypt
      rw [if_neg hne]
      rw [if_neg (by simp [hsw])]
      have h4 : encMarker.length = 4 := rfl
      rw [h4]
      have : pyDropChars 4 (encMarker ++ f.enc x) = f.enc x := by
        have := pyDropChars_append encMarker (f.enc x)
        rwa [h4] at this
      rw [this]
      exact f.dec_enc x
    · intro _
      rw [henc]
      unfold is_encrypted
      simp [hne, hsw]

/-- Witness for C6 at the spec's literal example. -/
theorem C6_encrypt_roundtrip_witness :
    decrypt idFernet (encrypt idFernet "pässwörd_123") = "pässwörd_123" ∧
      is_encrypted (encrypt idFernet "pässwörd_123") = true :=
  ⟨(C6_encrypt_roundtrip idFernet "pässwörd_123").1,
   (C6_encrypt_roundtrip idFernet "pässwörd_123").2 (by decide)⟩

-- ─── C7: categorizer determinism, sortedness, distinctness ───

theorem strLeB_trans (a b c : String) :
    (a ≤ b : Bool) → (b ≤ c : Bool) → (a ≤ c : Bool) := by
  intro h1 h2
  simp only [decide_eq_true_eq] at *
  exact le_trans h1 h2

theorem strLeB_total (a b : String) : (a ≤ b : Bool) || (b ≤ a : Bool) := by
  rcases le_total a b with h | h <;> simp [h]

/-- C7: `categorize_file` is deterministic and idempotent on equal inputs,
and its output is sorted ascending with no duplicates. -/
theorem C7_categorize_sorted_distinct (parse : String → Option Int)
    (name : String) (mime : Option String) (size : Nat)
    (modified_at : Option String) :
    categorize_file parse name mime size modified_at =
      categorize_file parse name mime size modified_at ∧
    (categorize_file parse name mime size modified_at).Sorted (· ≤ ·) ∧
    (categorize_file parse name mime size modified_at).Nodup := by
  have key : ∀ l : List String,
      (l.dedup.mergeSort (fun a b => a ≤ b)).Sorted (· ≤ ·) ∧
      (l.dedup.mergeSort (fun a b => a ≤ b)).Nodup := by
    intro l
    constructor
    · have h := @List.sorted_mergeSort String (fun a b : String => a ≤ b)
        strLeB_trans strLeB_total l.dedup
      exact h.imp (fun hab => by simpa using hab)
    · exact ((List.mergeSort_perm l.dedup _).symm).nodup (List.nodup_dedup l)
  refine ⟨rfl, ?_, ?_⟩
  · unfold categorize_file
    exact (key _).1
  · unfold categorize_file
    exact (key _).2

-- ─── C8: starting a scan while one runs is side-effect free ───

/-- C8: when a scan is already running, `start_scan` returns the busy
error and leaves the scan-state record, the cancel flag and the
`scan_log` table exactly as they were. -/
theorem C8_start_scan_busy (st : ScanState) (cancelFlag : Bool)
    (log : List ScanLogRow) (sources : List SMBSource) (nowIso : String)
    (h : st.running = true) :
    start_scan st cancelFlag log sources nowIso =
      (some "Scan already in progress", st, cancelFlag, log) := by
  unfold start_scan
  rw [if_pos h]

/-- Witness for C8 on a concrete running state. -/
theorem C8_start_scan_busy_witness :
    start_scan (freshScanState "2024-01-01T00:00:00+00:00") true []
        [⟨"nas", "media", "u", "p", "/", "media"⟩] "2024-01-02T00:00:00+00:00" =
      (some "Scan already in progress",
        freshScanState "2024-01-01T00:00:00+00:00", true, []) :=
  C8_start_scan_busy _ _ _ _ _ rfl

-- ─── C9: duplicate addSource ───

/-- C9 as frozen is too strong: on a stored configuration that still
contains a plaintext credential, the `load_config` call inside
`add_source` auto-migrates — rewriting the file — before the duplicate
check answers. Concretely, adding a duplicate of `h/s` to a file whose
stored password is the plaintext `p` returns the duplicate error yet
leaves the file re-encrypted, not untouched. -/
theorem C9_counterexample :
    (add_source idFernet (some [⟨"h", "s", "", "p", "/", "s"⟩])
        "h" "s" "u" "q" "/" "lbl").1.1 = false ∧
    (add_source idFernet (some [⟨"h", "s", "", "p", "/", "s"⟩])
        "h" "s" "u" "q" "/" "lbl").2 ≠ some [⟨"h", "s", "", "p", "/", "s"⟩] := by
  decide

/-- C9 amended: when every stored credential is already encrypted (or
empty) — the steady state the auto-migration itself establishes — a
duplicate `add_source` returns the duplicate-source error and the
persisted file is byte-identical: no entry added, no rewrite. -/
theorem C9_duplicate_add_source (f : FernetModel)
    (entries : List SourceEntry)
    (host share username password subfolder label : String)
    (hclean : entries.any entryNeedsResave = false)
    (hdup : entries.any (fun e => entrySourceId e =
      pyRstripChar '/' (host ++ "/" ++ share ++ subfolder)) = true) :
    add_source f (some entries) host share username password subfolder label =
      ((false, "Source already exists: " ++
        pyRstripChar '/' (host ++ "/" ++ share ++ subfolder)), some entries) := by
  unfold add_source load_config
  simp only [hclean, if_false, Bool.false_eq_true]
  have hmap : (entries.map (fun e =>
      { e with password := decryptField f e.password,
               username := decryptField f e.username })).any
        (fun e => entrySourceId e =
          pyRstripChar '/' (host ++ "/" ++ share ++ subfolder)) = true := by
    rw [List.any_map]
    exact hdup
  simp [hmap]

/-- Witness for the amended C9 on a concrete encrypted configuration. -/
theorem C9_duplicate_add_source_witness :
    add_source idFernet (some [⟨"h", "s", "enc:u", "enc:p", "/", "s"⟩])
        "h" "s" "u2" "p2" "/" "lbl" =
      ((false, "Source already exists: " ++
        pyRstripChar '/' ("h" ++ "/" ++ "s" ++ "/")), some [⟨"h", "s", "enc:u", "enc:p", "/", "s"⟩]) :=
  C9_duplicate_add_source idFernet _ "h" "s" "u2" "p2" "/" "lbl"
    (by decide) (by decide)

-- ─── C10: logical/SMB path round-trip ───

/-- C10 as frozen fails when another source earlier in the list carries
the same label: the claim's path lies under the second source's root, the
list contains that source, yet `relative_to_smb` resolves the first
source's root. Sources `h1/a` (label `a`) and `h2/b` (label `a`): the
path `\\h2\b\f` maps to `/a/f` and back to `\\h1\a\f`. -/
theorem C10_counterexample :
    smb_to_relative "\\\\h2\\b\\f" ⟨"h2", "b", "u", "p", "/", "a"⟩ = "/a/f" ∧
    relative_to_smb
        (smb_to_relative "\\\\h2\\b\\f" ⟨"h2", "b", "u", "p", "/", "a"⟩)
        [⟨"h1", "a", "u", "p", "/", "a"⟩, ⟨"h2", "b", "u", "p", "/", "a"⟩] =
      some "\\\\h1\\a\\f" ∧
    ("\\\\h1\\a\\f" : String) ≠ "\\\\h2\\b\\f" := by
  refine ⟨by decide, by decide, by decide⟩

theorem dropWhile_eq_self_of_all {l : List Char} {c : Char}
    (h : ∀ x ∈ l, x ≠ c) : l.dropWhile (· = c) = l := by
  cases l with
  | nil => rfl
  | cons x xs =>
    rw [List.dropWhile_cons_of_neg]
    simp only [decide_eq_true_eq]
    exact h x (by simp)

theorem pyReplaceChar_eq_self {a : Char} (b : Char) {s : String}
    (h : ∀ c ∈ s.data, c ≠ a) : pyReplaceChar a b s = s := by
  unfold pyReplaceChar
  have key : ∀ l : List Char, (∀ c ∈ l, c ≠ a) →
      l.map (fun c => if c = a then b else c) = l := by
    intro l hl
    induction l with
    | nil => rfl
    | cons x xs ih =>
      simp only [List.map_cons, List.cons.injEq]
      exact ⟨by simp [hl x (by simp)], ih (fun c hc => hl c (by simp [hc]))⟩
  rw [key s.data h]

theorem pyRstripChar_eq_self {c : Char} {s : String}
    (h : s.data.getLast? ≠ some c) : pyRstripChar c s = s := by
  unfold pyRstripChar
  rcases hrev : s.data.reverse with _ | ⟨x, xs⟩
  · have hnil : s.data = [] := by
      have := congrArg List.reverse hrev
      simpa using this
    apply String.ext
    simp [hrev, hnil]
  · have hx : x ≠ c := by
      intro he
      apply h
      rw [← List.head?_reverse, hrev, he]
      rfl
    rw [List.dropWhile_cons_of_neg (by simpa using hx), ← hrev]
    simp

theorem breakAtChar_no_match {c : Char} {l : List Char}
    (h : ∀ x ∈ l, x ≠ c) : breakAtChar c l = (l, none) := by
  induction l with
  | nil => rfl
  | cons x xs ih =>
    unfold breakAtChar
    rw [if_neg (h x (by simp))]
    rw [ih (fun y hy => h y (by simp [hy]))]

theorem breakAtChar_first {c : Char} {l₁ l₂ : List Char}
    (h : ∀ x ∈ l₁, x ≠ c) : breakAtChar c (l₁ ++ c :: l₂) = (l₁, some l₂) := by
  induction l₁ with
  | nil => simp [breakAtChar]
  | cons x xs ih =>
    rw [List.cons_append]
    unfold breakAtChar
    rw [if_neg (h x (by simp))]
    rw [ih (fun y hy => h y (by simp [hy]))]

theorem strAppend_empty (s : String) : s ++ "" = s := by
  apply String.ext
  rw [strAppend_data]
  simp [String.data]

theorem rstripList_eq_self {l : List Char} {c : Char}
    (h : l.getLast? ≠ some c) : (l.reverse.dropWhile (· = c)).reverse = l := by
  rcases hrev : l.reverse with _ | ⟨x, xs⟩
  · have hnil : l = [] := by
      have := congrArg List.reverse hrev
      simpa using this
    simp [hrev, hnil]
  · have hx : x ≠ c := by
      intro he
      apply h
      rw [← List.head?_reverse, hrev, he]
      rfl
    rw [List.dropWhile_cons_of_neg (by simpa using hx), ← hrev]
    simp

theorem pyStripChar_slash_label (lbl : String)
    (hl2 : ∀ c ∈ lbl.data, c ≠ '/') :
    pyStripChar '/' ("/" ++ lbl) = lbl := by
  unfold pyStripChar
  apply String.ext
  rw [strAppend_data]
  show ((((['/'] ++ lbl.data).dropWhile (· = '/')).reverse.dropWhile
    (· = '/')).reverse : List Char) = lbl.data
  rw [List.cons_append, List.nil_append,
    List.dropWhile_cons_of_pos (by simp),
    dropWhile_eq_self_of_all hl2]
  apply rstripList_eq_self
  intro hlast
  exact hl2 '/' (List.mem_of_getLast?_eq_some hlast) rfl

theorem pyStripChar_slash_label_rel (lbl rel : String) (hl1 : lbl ≠ "")
    (hl2 : ∀ c ∈ lbl.data, c ≠ '/')
    (hrel1 : rel.data ≠ []) (hrel2 : rel.data.getLast? ≠ some '/') :
    pyStripChar '/' ("/" ++ lbl ++ "/" ++ rel) =
      ⟨lbl.data ++ '/' :: rel.data⟩ := by
  obtain ⟨y, hy⟩ : ∃ y, rel.data.getLast? = some y :=
    Option.isSome_iff_exists.mp (List.getLast?_isSome.mpr hrel1)
  have hdata : ("/" ++ lbl ++ "/" ++ rel).data =
      '/' :: (lbl.data ++ '/' :: rel.data) := by
    simp [strAppend_data]
  unfold pyStripChar
  apply String.ext
  rw [hdata]
  rcases hld : lbl.data with _ | ⟨x, xs⟩
  · exact absurd (String.ext hld) hl1
  · have hx : x ≠ '/' := hl2 x (by simp [hld])
    rw [List.dropWhile_cons_of_pos (by simp)]
    rw [List.cons_append, List.dropWhile_cons_of_neg (by simpa using hx)]
    rw [show (x :: (xs ++ '/' :: rel.data) : List Char) =
      (x :: xs) ++ '/' :: rel.data from rfl]
    rw [rstripList_eq_self (by
      rw [show ('/' :: rel.data : List Char) = ['/'] ++ rel.data from rfl,
        ← List.append_assoc, List.getLast?_append, hy, Option.or_some]
      intro he
      exact hrel2 (hy.trans (congrArg some (Option.some.inj he))))]

theorem relative_to_smb_go_skip (lbl rem : String) (pre rest : List SMBSource)
    (hpre : ∀ s' ∈ pre, s'.effLabel ≠ lbl) :
    relative_to_smb_go lbl rem (pre ++ rest) = relative_to_smb_go lbl rem rest := by
  induction pre with
  | nil => rfl
  | cons s' pre' ih =>
    rw [List.cons_append]
    show (if s'.effLabel = lbl then
        some (s'.smb_root ++
          (if rem ≠ "" then "\\" ++ pyReplaceChar '/' bslashChar rem else ""))
      else relative_to_smb_go lbl rem (pre' ++ rest)) =
        relative_to_smb_go lbl rem rest
    rw [if_neg (hpre s' (by simp))]
    exact ih (fun x hx => hpre x (by simp [hx]))

theorem relative_to_smb_root_form (lbl : String) (sources : List SMBSource)
    (hl2 : ∀ c ∈ lbl.data, c ≠ '/') :
    relative_to_smb ("/" ++ lbl) sources =
      relative_to_smb_go lbl "" sources := by
  unfold relative_to_smb pySplitOnce
  rw [pyStripChar_slash_label lbl hl2]
  rw [breakAtChar_no_match hl2]

theorem relative_to_smb_under_form (lbl rel : String)
    (sources : List SMBSource) (hl1 : lbl ≠ "")
    (hl2 : ∀ c ∈ lbl.data, c ≠ '/')
    (hrel1 : rel.data ≠ []) (hrel2 : rel.data.getLast? ≠ some '/') :
    relative_to_smb ("/" ++ lbl ++ "/" ++ rel) sources =
      relative_to_smb_go lbl rel sources := by
  unfold relative_to_smb pySplitOnce
  rw [pyStripChar_slash_label_rel lbl rel hl1 hl2 hrel1 hrel2]
  rw [show (String.mk (lbl.data ++ '/' :: rel.data)).data =
    lbl.data ++ '/' :: rel.data from rfl]
  rw [breakAtChar_first hl2]

theorem replaceChar_comp (r : String) (h : ∀ c ∈ r.data, c ≠ '/') :
    pyReplaceChar '/' bslashChar (pyReplaceChar bslashChar '/' r) = r := by
  unfold pyReplaceChar
  apply String.ext
  show (r.data.map fun c => if c = bslashChar then '/' else c).map
    (fun c => if c = '/' then bslashChar else c) = r.data
  rw [List.map_map]
  have key : ∀ l : List Char, (∀ c ∈ l, c ≠ '/') →
      l.map ((fun c => if c = '/' then bslashChar else c) ∘
        (fun c => if c = bslashChar then '/' else c)) = l := by
    intro l hl
    induction l with
    | nil => rfl
    | cons x xs ih =>
      simp only [List.map_cons, List.cons.injEq]
      refine ⟨?_, ih (fun c hc => hl c (by simp [hc]))⟩
      by_cases hb : x = bslashChar
      · simp [Function.comp, hb, bslashChar]
      · simp [Function.comp, hb, hl x (by simp)]
  rw [key r.data h]

theorem smbRoot_to_relative (s : SMBSource)
    (hr1 : ∀ c ∈ s.smb_root.data, c ≠ '/')
    (hr2 : s.smb_root.data.getLast? ≠ some bslashChar) :
    smb_to_relative s.smb_root s = "/" ++ s.effLabel := by
  unfold smb_to_relative
  simp only [pyReplaceChar_eq_self bslashChar hr1, pyRstripChar_eq_self hr2,
    if_pos]

theorem smbUnder_to_relative (s : SMBSource) (r : String)
    (hr1 : ∀ c ∈ s.smb_root.data, c ≠ '/')
    (hr2 : s.smb_root.data.getLast? ≠ some bslashChar)
    (hrr1 : r.data ≠ []) (hrr2 : ∀ c ∈ r.data, c ≠ '/')
    (hrr3 : r.data.getLast? ≠ some bslashChar) :
    smb_to_relative (s.smb_root ++ "\\" ++ r) s =
      "/" ++ s.effLabel ++ "/" ++ pyReplaceChar bslashChar '/' r := by
  obtain ⟨y, hy⟩ : ∃ y, r.data.getLast? = some y :=
    Option.isSome_iff_exists.mp (List.getLast?_isSome.mpr hrr1)
  have hpd : (s.smb_root ++ "\\" ++ r).data =
      s.smb_root.data ++ '\\' :: r.data := by
    simp [strAppend_data]
  have hAll : ∀ c ∈ (s.smb_root ++ "\\" ++ r).data, c ≠ '/' := by
    rw [hpd]
    intro c hc
    rcases List.mem_append.mp hc with h | h
    · exact hr1 c h
    · rcases List.mem_cons.mp h with h | h
      · rw [h]; decide
      · exact hrr2 c h
  have hlast : (s.smb_root ++ "\\" ++ r).data.getLast? ≠ some bslashChar := by
    rw [hpd, show (s.smb_root.data ++ '\\' :: r.data : List Char) =
      (s.smb_root.data ++ ['\\']) ++ r.data from by simp,
      List.getLast?_append, hy, Option.or_some]
    intro he
    exact hrr3 (hy.trans (congrArg some (Option.some.inj he)))
  have hne : s.smb_root ++ "\\" ++ r ≠ s.smb_root := by
    intro h
    have hlen := congrArg String.length h
    simp only [String.length_append] at hlen
    have : r.length = r.data.length := rfl
    have hr0 : r.data.length ≠ 0 := fun h0 => hrr1 (List.eq_nil_of_length_eq_zero h0)
    omega
  have hsw : pyStartsWith (s.smb_root ++ "\\" ++ r) (s.smb_root ++ "\\") = true := by
    unfold pyStartsWith
    apply List.isPrefixOf_iff_prefix.mpr
    rw [show (s.smb_root ++ "\\" ++ r).data =
      (s.smb_root ++ "\\").data ++ r.data from strAppend_data _ _]
    exact List.prefix_append _ _
  have hdrop : pyDropChars ((s.smb_root ++ "\\").length) (s.smb_root ++ "\\" ++ r) = r := by
    unfold pyDropChars
    rw [show (s.smb_root ++ "\\" ++ r).data =
      (s.smb_root ++ "\\").data ++ r.data from strAppend_data _ _]
    rw [show (s.smb_root ++ "\\").length =
      (s.smb_root ++ "\\").data.length from rfl]
    rw [List.drop_left]
  unfold smb_to_relative
  simp only [pyReplaceChar_eq_self bslashChar hAll,
    pyRstripChar_eq_self hlast,
    pyReplaceChar_eq_self bslashChar hr1, pyRstripChar_eq_self hr2]
  rw [if_neg hne, if_pos hsw]
  have hlen1 : s.smb_root.length + 1 = (s.smb_root ++ "\\").length := by
    rw [String.length_append]
    rfl
  rw [hlen1, hdrop]

/-- C10 amended: with the shadowing excluded — `s` is the first source in
the list bearing its label — the round trip holds: for a well-formed
source (non-empty label without `/`, root in backslash form without
trailing separator) and an SMB path at the root or under it (non-empty
backslash-form remainder without trailing separator), `smb_to_relative`
produces `/label` resp. `/label/<segments>` with forward slashes, and
`relative_to_smb` over the list returns the original path. -/
theorem C10_path_roundtrip (s : SMBSource) (pre post : List SMBSource)
    (rest : Option String) (p : String)
    (hl1 : s.label ≠ "")
    (hl2 : ∀ c ∈ s.label.data, c ≠ '/')
    (hr1 : ∀ c ∈ s.smb_root.data, c ≠ '/')
    (hr2 : s.smb_root.data.getLast? ≠ some bslashChar)
    (hpre : ∀ s' ∈ pre, s'.effLabel ≠ s.effLabel)
    (hp : p = (match rest with
      | none => s.smb_root
      | some r => s.smb_root ++ "\\" ++ r))
    (hrest : ∀ r, rest = some r → r.data ≠ [] ∧ (∀ c ∈ r.data, c ≠ '/') ∧
      r.data.getLast? ≠ some bslashChar) :
    smb_to_relative p s = (match rest with
      | none => "/" ++ s.label
      | some r => "/" ++ s.label ++ "/" ++ pyReplaceChar bslashChar '/' r) ∧
    relative_to_smb (smb_to_relative p s) (pre ++ s :: post) = some p := by
  have heff : s.effLabel = s.label := by
    unfold SMBSource.effLabel
    rw [if_neg hl1]
  cases rest with
  | none =>
    subst hp
    have h1 : smb_to_relative s.smb_root s = "/" ++ s.label := by
      rw [smbRoot_to_relative s hr1 hr2, heff]
    refine ⟨h1, ?_⟩
    rw [h1, relative_to_smb_root_form s.label _ hl2,
      relative_to_smb_go_skip s.label "" pre (s :: post)
        (fun s' hs' => heff ▸ hpre s' hs')]
    show (if s.effLabel = s.label then
        some (s.smb_root ++
          (if ("" : String) ≠ "" then "\\" ++ pyReplaceChar '/' bslashChar "" else ""))
      else relative_to_smb_go s.label "" post) = some s.smb_root
    rw [if_pos heff, if_neg (by decide)]
    rw [strAppend_empty]
  | some r =>
    obtain ⟨hrr1, hrr2, hrr3⟩ := hrest r rfl
    subst hp
    have h1 : smb_to_relative (s.smb_root ++ "\\" ++ r) s =
        "/" ++ s.label ++ "/" ++ pyReplaceChar bslashChar '/' r := by
      rw [smbUnder_to_relative s r hr1 hr2 hrr1 hrr2 hrr3, heff]
    refine ⟨h1, ?_⟩
    have hrel1 : (pyReplaceChar bslashChar '/' r).data ≠ [] := by
      unfold pyReplaceChar
      intro h
      exact hrr1 (List.map_eq_nil_iff.mp h)
    have hrel2 : (pyReplaceChar bslashChar '/' r).data.getLast? ≠ some '/' := by
      unfold pyReplaceChar
      show (r.data.map _).getLast? ≠ some '/'
      rw [List.getLast?_map]
      obtain ⟨y, hy⟩ : ∃ y, r.data.getLast? = some y :=
        Option.isSome_iff_exists.mp (List.getLast?_isSome.mpr hrr1)
      rw [hy]
      have hyb : y ≠ bslashChar := by
        intro he
        exact hrr3 (he ▸ hy)
      have hys : y ≠ '/' := hrr2 y (List.mem_of_getLast?_eq_some hy)
      intro he
      have hfy : (if y = bslashChar then '/' else y) = '/' := Option.some.inj he
      rw [if_neg hyb] at hfy
      exact hys hfy
    rw [h1, relative_to_smb_under_form s.label _ _ hl1 hl2 hrel1 hrel2,
      relative_to_smb_go_skip s.label _ pre (s :: post)
        (fun s' hs' => heff ▸ hpre s' hs')]
    have hrelne : pyReplaceChar bslashChar '/' r ≠ "" := by
      intro h
      exact hrel1 (congrArg String.data h)
    show (if s.effLabel = s.label then
        some (s.smb_root ++
          (if pyReplaceChar bslashChar '/' r ≠ "" then
            "\\" ++ pyReplaceChar '/' bslashChar (pyReplaceChar bslashChar '/' r)
          else ""))
      else relative_to_smb_go s.label _ post) = some (s.smb_root ++ "\\" ++ r)
    rw [if_pos heff, if_pos hrelne, replaceChar_comp r hrr2]
    rw [String.append_assoc]

/-- Witness for the amended C10 on a concrete source list with a shadowed
second position. -/
theorem C10_path_roundtrip_witness :
    smb_to_relative "\\\\nas\\media\\movies\\a.mkv" ⟨"nas", "media", "u", "p", "/", "media"⟩ =
      "/" ++ "media" ++ "/" ++ pyReplaceChar bslashChar '/' "movies\\a.mkv" ∧
    relative_to_smb
        (smb_to_relative "\\\\nas\\media\\movies\\a.mkv" ⟨"nas", "media", "u", "p", "/", "media"⟩)
        ([⟨"h0", "docs", "u", "p", "/", "docs"⟩] ++
          ⟨"nas", "media", "u", "p", "/", "media"⟩ :: []) =
      some "\\\\nas\\media\\movies\\a.mkv" := by
  have h := C10_path_roundtrip ⟨"nas", "media", "u", "p", "/", "media"⟩
    [⟨"h0", "docs", "u", "p", "/", "docs"⟩] [] (some "movies\\a.mkv")
    "\\\\nas\\media\\movies\\a.mkv"
    (by decide) (by decide) (by decide) (by decide) (by decide)
    (by decide)
    (by intro r hr
        injection hr with h
        subst h
        exact ⟨by decide, by decide, by decide⟩)
  exact h

-- ─── C2: the content fingerprint ───

theorem listLenGo_eq (l : List Nat) : ∀ acc, listLenGo acc l = acc + l.length := by
  induction l with
  | nil => intro acc; simp [listLenGo]
  | cons x xs ih =>
    intro acc
    unfold listLenGo
    rw [if_pos rfl, ih]
    simp only [List.length_cons]
    omega

theorem listLen_eq (l : List Nat) : listLen l = l.length := by
  unfold listLen
  rw [listLenGo_eq]
  omega

/-- C2 as frozen fails in the band `N < size ≤ 2N`: there the code hashes
only the first `N` bytes, not the first `size` bytes. With
`hash_sample_size_kb = 1` (`N = 1024`) and a 1025-byte all-zero file the
two fingerprints differ. -/
theorem C2_counterexample :
    compute_hash 1 1025 (List.replicate 1025 0) ≠
      some (claimFingerprint 1 1025 (List.replicate 1025 0)) := by
  decide

/-- C2 amended: the fingerprint is the leading 16 hex characters of
SHA-256 over the decimal size followed by the first `min size N` bytes
when `size ≤ 2N`, and by the first `N` and last `N` bytes when
`size > 2N`. -/
theorem C2_fingerprint (sampleKb : Nat) (content : List Nat) (s : Nat)
    (hs : s = content.length) :
    compute_hash sampleKb s content =
      some (amendedFingerprint sampleKb s content) := by
  subst hs
  unfold compute_hash amendedFingerprint fileRead fileSeekFromEnd
  simp only [List.drop_zero, listLen_eq]
  by_cases h : sampleKb * 1024 * 2 < content.length
  · have h1 : sampleKb * 1024 ≤ content.length := by omega
    have h2 : ¬ content.length ≤ 2 * (sampleKb * 1024) := by omega
    rw [if_pos h, if_pos h1, if_neg h2]
    show some (pyTakeChars 16 (sha256Hex
        (decimalBytes content.length ++ content.take (sampleKb * 1024) ++
          (content.drop (content.length - sampleKb * 1024)).take (sampleKb * 1024)))) = _
    have ht : (content.drop (content.length - sampleKb * 1024)).take (sampleKb * 1024)
        = content.drop (content.length - sampleKb * 1024) :=
      List.take_of_length_le (by
        rw [List.length_drop]
        omega)
    rw [ht, List.append_assoc]
  · have h2 : content.length ≤ 2 * (sampleKb * 1024) := by omega
    rw [if_neg h, if_pos h2]
    by_cases hN : sampleKb * 1024 ≤ content.length
    · rw [min_eq_right hN]
    · rw [min_eq_left (by omega)]
      rw [List.take_of_length_le (by omega), List.take_length]

/-- Witness for the amended C2 on a small concrete file. -/
theorem C2_fingerprint_witness :
    compute_hash 1 [7, 8, 9].length [7, 8, 9] =
      some (amendedFingerprint 1 [7, 8, 9].length [7, 8, 9]) :=
  C2_fingerprint 1 [7, 8, 9] [7, 8, 9].length rfl

-- ─── C1: Phase 2 never resolves a source, so no hash is ever set ───

/-- The worker's resolution loop can never succeed: every probe passes a
bare `SMBSource` where `relative_to_smb` expects a list, the iteration
raises `TypeError`, and the `except` clause moves on. -/
theorem enrich_resolve_always_none (sources : List SMBSource) (path : String) :
    enrich_resolve sources path = none := by
  induction sources with
  | nil => rfl
  | cons s rest ih => exact ih

/-- C1 evaluated at the spec's literal Phase-2 example (source `media`,
file `/media/movie.mkv` pending enrichment): `_enrich_file` returns
`None` because `relative_to_smb(path, source)` passes a single dataclass
where the function iterates a list, and the whole Phase-2 pass leaves the
row's `file_hash` NULL — the claim promises a 16-hex string. -/
theorem C1_enrich_file_loses_hash :
    enrich_file 64 (fun _ => [])
        [⟨"nas", "media", "u", "p", "/", "media"⟩]
        ⟨"/media/movie.mkv", "movie.mkv", some "/media", false, 4500000000,
          some "video/x-matroska", none, none,
          some "2024-06-01T00:00:00+00:00", "2024-06-02T00:00:00+00:00", none⟩ = none ∧
    (phase2_enrich
        (enrich_file 64 (fun _ => []) [⟨"nas", "media", "u", "p", "/", "media"⟩])
        ⟨[⟨"/media/movie.mkv", "movie.mkv", some "/media", false, 4500000000,
            some "video/x-matroska", none, none,
            some "2024-06-01T00:00:00+00:00", "2024-06-02T00:00:00+00:00", none⟩],
          [], []⟩).files.all (fun r => r.file_hash = none) = true := by
  refine ⟨by decide, by decide⟩

-- ─── C4: source removal purges everything under the label ───

theorem tails_any_isEmpty (t : List Char) :
    (t.tails.any (fun x => likeMatch [] x)) = true := by
  induction t with
  | nil => rfl
  | cons c t ih =>
    rw [List.tails_cons, List.any_cons, ih]
    simp

theorem likeMatch_append_percent (p t : List Char) :
    likeMatch (p ++ ['%']) (p ++ t) = true := by
  induction p with
  | nil =>
    show likeMatch ['%'] t = true
    show (if ('%' : Char) = '%' then t.tails.any (fun s => likeMatch [] s)
      else _) = true
    rw [if_pos rfl]
    exact tails_any_isEmpty t
  | cons c p' ih =>
    by_cases hc : c = '%'
    · subst hc
      show (if ('%' : Char) = '%' then
          (('%' :: (p' ++ t)).tails.any (fun s => likeMatch (p' ++ ['%']) s))
        else _) = true
      rw [if_pos rfl]
      apply List.any_eq_true.mpr
      refine ⟨p' ++ t, ?_, ih⟩
      exact (List.mem_tails _ _).mpr (List.suffix_cons _ _)
    · show (if c = '%' then _
        else (if c = '_' then true else decide (c = c)) && likeMatch (p' ++ ['%']) (p' ++ t)) = true
      rw [if_neg hc, ih]
      by_cases hu : c = '_'
      · simp [hu]
      · simp [hu]

/-- The claim's removal condition implies membership in the SQL purge
condition `path LIKE '/<label>/%' OR path = '/<label>'`. -/
theorem purgeCond_of_claim (L p : String)
    (h : p = "/" ++ L ∨ ("/" ++ L ++ "/").data.isPrefixOf p.data) :
    purgeCond L p = true := by
  unfold purgeCond
  rcases h with h | h
  · simp [h]
  · obtain ⟨t, ht⟩ := (List.isPrefixOf_iff_prefix.mp h)
    have hpat : ("/" ++ L ++ "/%").data = ("/" ++ L ++ "/").data ++ ['%'] := by
      rw [show ("/" ++ L ++ "/%" : String) = ("/" ++ L ++ "/") ++ "%" from by
        rw [String.append_assoc, String.append_assoc]
        rfl]
      rw [strAppend_data]
    have hlm : likeMatch ("/" ++ L ++ "/%").data p.data = true := by
      rw [hpat, ← ht]
      exact likeMatch_append_percent _ t
    rw [hlm]
    exact Bool.true_or _

theorem removedLabel_foldl (sid L : String) :
    ∀ (l : List SourceEntry) (acc : Option String),
    (∀ e ∈ l, entrySourceId e = sid → e.label = L) →
    ((∃ e ∈ l, entrySourceId e = sid) ∨ acc = some L) →
    l.foldl (fun acc e => if entrySourceId e = sid then some e.label else acc) acc
      = some L := by
  intro l
  induction l with
  | nil =>
    intro acc _ hd
    rcases hd with ⟨e, he, _⟩ | h
    · exact absurd he (List.not_mem_nil e)
    · exact h
  | cons e l' ih =>
    intro acc hall hd
    rw [List.foldl_cons]
    by_cases hp : entrySourceId e = sid
    · rw [if_pos hp]
      apply ih _ (fun x hx h => hall x (by simp [hx]) h)
      right
      rw [hall e (by simp) hp]
    · rw [if_neg hp]
      apply ih _ (fun x hx h => hall x (by simp [hx]) h)
      rcases hd with ⟨x, hx, hxp⟩ | h
      · rcases List.mem_cons.mp hx with rfl | hx'
        · exact absurd hxp hp
        · exact Or.inl ⟨x, hx', hxp⟩
      · exact Or.inr h

/-- C4: after a successful `remove_source` of a source whose stored
entries for that id all carry the (non-empty) label `L`, no file row at
`/L` or under `/L/` remains, and no tag or metadata row referencing such
a (removed) file row remains. -/
theorem C4_remove_source_purges (f : FernetModel)
    (entries : List SourceEntry) (cat : Catalog) (sid L : String)
    (hmem : ∃ e ∈ entries, entrySourceId e = sid)
    (hlbl : ∀ e ∈ entries, entrySourceId e = sid → e.label = L)
    (hL : L ≠ "") :
    (remove_source f (some entries) cat sid).1.success = true ∧
    (∀ r ∈ (remove_source f (some entries) cat sid).2.2.files,
      ¬ (r.path = "/" ++ L ∨ ("/" ++ L ++ "/").data.isPrefixOf r.path.data)) ∧
    (∀ t ∈ (remove_source f (some entries) cat sid).2.2.tags,
      ¬ (∃ r ∈ cat.files, r.path = t.1 ∧
        (t.1 = "/" ++ L ∨ ("/" ++ L ++ "/").data.isPrefixOf t.1.data))) ∧
    (∀ m ∈ (remove_source f (some entries) cat sid).2.2.metadata,
      ¬ (∃ r ∈ cat.files, r.path = m.1 ∧
        (m.1 = "/" ++ L ∨ ("/" ++ L ++ "/").data.isPrefixOf m.1.data))) := by
  have hconfig : (load_config f entries).1 = entries.map (fun e =>
      { e with password := decryptField f e.password,
               username := decryptField f e.username }) := rfl
  have hall' : ∀ e' ∈ (load_config f entries).1,
      entrySourceId e' = sid → e'.label = L := by
    rw [hconfig]
    intro e' he' hp
    obtain ⟨e, he, rfl⟩ := List.mem_map.mp he'
    exact hlbl e he hp
  have hmem' : ∃ e' ∈ (load_config f entries).1, entrySourceId e' = sid := by
    rw [hconfig]
    obtain ⟨e, he, hp⟩ := hmem
    exact ⟨_, List.mem_map_of_mem _ he, hp⟩
  have hfold : (load_config f entries).1.foldl
      (fun acc e => if entrySourceId e = sid then some e.label else acc) none
        = some L :=
    removedLabel_foldl sid L _ none hall' (Or.inl hmem')
  have hlen : ((load_config f entries).1.filter
      (fun e => entrySourceId e ≠ sid)).length ≠ (load_config f entries).1.length := by
    intro hEq
    obtain ⟨e, he, hp⟩ := hmem'
    have := (List.filter_length_eq_length.mp hEq) e he
    simp only [ne_eq, decide_eq_true_eq] at this
    exact this hp
  have hres : remove_source f (some entries) cat sid =
      (⟨true, "Removed source: " ++ sid,
        ((cat.files.filter (fun r => purgeCond L r.path)).map (·.path)).length⟩,
       some (save_config f ((load_config f entries).1.filter
         (fun e => entrySourceId e ≠ sid))),
       { files := cat.files.filter (fun r => ¬ purgeCond L r.path),
         tags := cat.tags.filter (fun t =>
           ¬ ((cat.files.filter (fun r => purgeCond L r.path)).map (·.path)).contains t.1),
         metadata := cat.metadata.filter (fun m =>
           ¬ ((cat.files.filter (fun r => purgeCond L r.path)).map (·.path)).contains m.1) }) := by
    unfold remove_source
    simp only [hfold, if_neg hlen]
    rw [if_pos hL]
  rw [hres]
  refine ⟨rfl, ?_, ?_, ?_⟩
  · intro r hr hclaim
    have hcond := List.of_mem_filter hr
    simp only [decide_eq_true_eq] at hcond
    exact hcond (purgeCond_of_claim L r.path hclaim)
  · intro t ht ⟨r, hrmem, hrpath, hclaim⟩
    have hcond := List.of_mem_filter ht
    simp only [decide_eq_true_eq] at hcond
    apply hcond
    apply List.contains_iff_exists_mem_beq.mpr
    refine ⟨t.1, ?_, by simp⟩
    apply List.mem_map.mpr
    refine ⟨r, ?_, hrpath⟩
    apply List.mem_filter.mpr
    exact ⟨hrmem, by simp [hrpath ▸ purgeCond_of_claim L t.1 hclaim]⟩
  · intro m hm ⟨r, hrmem, hrpath, hclaim⟩
    have hcond := List.of_mem_filter hm
    simp only [decide_eq_true_eq] at hcond
    apply hcond
    apply List.contains_iff_exists_mem_beq.mpr
    refine ⟨m.1, ?_, by simp⟩
    apply List.mem_map.mpr
    refine ⟨r, ?_, hrpath⟩
    apply List.mem_filter.mpr
    exact ⟨hrmem, by simp [hrpath ▸ purgeCond_of_claim L m.1 hclaim]⟩

/-- Witness for C4: removing source `nas/media` (label `media`) from a
catalog holding rows under `/media` and `/photos`. -/
theorem C4_remove_source_purges_witness :
    (remove_source idFernet
        (some [⟨"nas", "media", "enc:u", "enc:p", "/", "media"⟩])
        ⟨[⟨"/media", "media", none, true, 0, some "inode/directory", none, none, none, "t0", none⟩,
          ⟨"/media/a.mkv", "a.mkv", some "/media", false, 5, some "video/mp4", none, none, none, "t0", none⟩,
          ⟨"/photos/b.jpg", "b.jpg", some "/photos", false, 3, none, none, none, none, "t0", none⟩],
         [("/media/a.mkv", "media"), ("/photos/b.jpg", "media")],
         [("/media/a.mkv", "meta")]⟩
        "nas/media").1.success = true ∧
    (∀ r ∈ (remove_source idFernet
        (some [⟨"nas", "media", "enc:u", "enc:p", "/", "media"⟩])
        ⟨[⟨"/media", "media", none, true, 0, some "inode/directory", none, none, none, "t0", none⟩,
          ⟨"/media/a.mkv", "a.mkv", some "/media", false, 5, some "video/mp4", none, none, none, "t0", none⟩,
          ⟨"/photos/b.jpg", "b.jpg", some "/photos", false, 3, none, none, none, none, "t0", none⟩],
         [("/media/a.mkv", "media"), ("/photos/b.jpg", "media")],
         [("/media/a.mkv", "meta")]⟩
        "nas/media").2.2.files,
      ¬ (r.path = "/" ++ "media" ∨ ("/" ++ "media" ++ "/").data.isPrefixOf r.path.data)) ∧
    (∀ t ∈ (remove_source idFernet
        (some [⟨"nas", "media", "enc:u", "enc:p", "/", "media"⟩])
        ⟨[⟨"/media", "media", none, true, 0, some "inode/directory", none, none, none, "t0", none⟩,
          ⟨"/media/a.mkv", "a.mkv", some "/media", false, 5, some "video/mp4", none, none, none, "t0", none⟩,
          ⟨"/photos/b.jpg", "b.jpg", some "/photos", false, 3, none, none, none, none, "t0", none⟩],
         [("/media/a.mkv", "media"), ("/photos/b.jpg", "media")],
         [("/media/a.mkv", "meta")]⟩
        "nas/media").2.2.tags,
      ¬ (∃ r ∈ ([⟨"/media", "media", none, true, 0, some "inode/directory", none, none, none, "t0", none⟩,
          ⟨"/media/a.mkv", "a.mkv", some "/media", false, 5, some "video/mp4", none, none, none, "t0", none⟩,
          ⟨"/photos/b.jpg", "b.jpg", some "/photos", false, 3, none, none, none, none, "t0", none⟩] : List FileRow), r.path = t.1 ∧
        (t.1 = "/" ++ "media" ∨ ("/" ++ "media" ++ "/").data.isPrefixOf t.1.data))) ∧
    (∀ m ∈ (remove_source idFernet
        (some [⟨"nas", "media", "enc:u", "enc:p", "/", "media"⟩])
        ⟨[⟨"/media", "media", none, true, 0, some "inode/directory", none, none, none, "t0", none⟩,
          ⟨"/media/a.mkv", "a.mkv", some "/media", false, 5, some "video/mp4", none, none, none, "t0", none⟩,
          ⟨"/photos/b.jpg", "b.jpg", some "/photos", false, 3, none, none, none, none, "t0", none⟩],
         [("/media/a.mkv", "media"), ("/photos/b.jpg", "media")],
         [("/media/a.mkv", "meta")]⟩
        "nas/media").2.2.metadata,
      ¬ (∃ r ∈ ([⟨"/media", "media", none, true, 0, some "inode/directory", none, none, none, "t0", none⟩,
          ⟨"/media/a.mkv", "a.mkv", some "/media", false, 5, some "video/mp4", none, none, none, "t0", none⟩,
          ⟨"/photos/b.jpg", "b.jpg", some "/photos", false, 3, none, none, none, none, "t0", none⟩] : List FileRow), r.path = m.1 ∧
        (m.1 = "/" ++ "media" ∨ ("/" ++ "media" ++ "/").data.isPrefixOf m.1.data))) :=
  C4_remove_source_purges idFernet
    [⟨"nas", "media", "enc:u", "enc:p", "/", "media"⟩]
    ⟨[⟨"/media", "media", none, true, 0, some "inode/directory", none, none, none, "t0", none⟩,
      ⟨"/media/a.mkv", "a.mkv", some "/media", false, 5, some "video/mp4", none, none, none, "t0", none⟩,
      ⟨"/photos/b.jpg", "b.jpg", some "/photos", false, 3, none, none, none, none, "t0", none⟩],
     [("/media/a.mkv", "media"), ("/photos/b.jpg", "media")],
     [("/media/a.mkv", "meta")]⟩
    "nas/media" "media" (by decide) (by decide) (by decide)

-- ─── C5: the directory-row invariant ───

theorem goodRow_of_dirInv {c : Catalog} (h : dirInv c) :
    ∀ r ∈ c.files, r.is_directory = true →
      r.size = 0 ∧ r.file_hash = none ∧ r.full_text = none := h

theorem dirInv_insertOrReplace {c : Catalog} {r : FileRow}
    (hc : dirInv c)
    (hr : r.is_directory = true → r.size = 0 ∧ r.file_hash = none ∧ r.full_text = none) :
    dirInv (insertOrReplaceFile r c) := by
  intro r' hr' hdir
  rcases List.mem_cons.mp hr' with rfl | hmem
  · exact hr hdir
  · exact hc r' (List.mem_of_mem_filter hmem) hdir

theorem pathsUnique_insertOrReplace {c : Catalog} (r : FileRow)
    (hc : c.pathsUnique) : (insertOrReplaceFile r c).pathsUnique := by
  unfold Catalog.pathsUnique insertOrReplaceFile
  simp only [List.map_cons]
  apply List.Nodup.cons
  · intro hmem
    obtain ⟨x, hx, hpx⟩ := List.mem_map.mp hmem
    have := List.of_mem_filter hx
    simp only [ne_eq, decide_eq_true_eq] at this
    exact this hpx
  · exact ((List.filter_sublist _).map _).nodup hc

theorem dirInv_flushBatch {c : Catalog} {batch : List FileRow}
    (hc : dirInv c)
    (hb : ∀ r ∈ batch, r.is_directory = true →
      r.size = 0 ∧ r.file_hash = none ∧ r.full_text = none) :
    dirInv (flushBatch c batch) := by
  induction batch generalizing c with
  | nil => exact hc
  | cons r rest ih =>
    exact ih (dirInv_insertOrReplace hc (hb r (by simp)))
      (fun x hx => hb x (by simp [hx]))

theorem pathsUnique_flushBatch {c : Catalog} (batch : List FileRow)
    (hc : c.pathsUnique) : (flushBatch c batch).pathsUnique := by
  induction batch generalizing c with
  | nil => exact hc
  | cons r rest ih => exact ih (pathsUnique_insertOrReplace r hc)

theorem dirInv_delete {c : Catalog} (p : String) (hc : dirInv c) :
    dirInv (deleteFileCascade c p) :=
  fun r hr hd => hc r (List.mem_of_mem_filter hr) hd

theorem pathsUnique_delete {c : Catalog} (p : String)
    (hc : c.pathsUnique) : (deleteFileCascade c p).pathsUnique :=
  ((List.filter_sublist _).map _).nodup hc

theorem insertTagIgnore_files (c : Catalog) (p tag : String) :
    (insertTagIgnore c p tag).files = c.files := by
  unfold insertTagIgnore
  split <;> rfl

theorem apply_tags_bulk_files (parse : String → Option Int) (label : String)
    (c : Catalog) : (apply_tags_bulk parse label c).files = c.files := by
  unfold apply_tags_bulk
  generalize (c.files.filter _) = rows
  induction rows generalizing c with
  | nil => rfl
  | cons r rest ih =>
    rw [List.foldl_cons]
    rw [ih]
    generalize (categorize_file parse r.name r.mime_type r.size r.modified_at) = tags
    induction tags generalizing c with
    | nil => rfl
    | cons t ts iht =>
      rw [List.foldl_cons, iht, insertTagIgnore_files]

theorem remove_stale_preserves {c : Catalog} (st : ScanState)
    (label : String) (seen : List String)
    (hc : dirInv c) (hu : c.pathsUnique) :
    dirInv (remove_stale c st label seen).1 ∧
      (remove_stale c st label seen).1.pathsUnique := by
  unfold remove_stale
  generalize ((c.files.filter _).map _) = allIndexed
  have main : ∀ (l : List String) (c0 : Catalog), dirInv c0 → c0.pathsUnique →
      dirInv (l.foldl (fun c p => if seen.contains p then c else deleteFileCascade c p) c0) ∧
      (l.foldl (fun c p => if seen.contains p then c else deleteFileCascade c p) c0).pathsUnique := by
    intro l
    induction l with
    | nil => exact fun c0 h1 h2 => ⟨h1, h2⟩
    | cons p rest ih =>
      intro c0 h1 h2
      rw [List.foldl_cons]
      by_cases hp : seen.contains p
      · rw [if_pos hp]
        exact ih c0 h1 h2
      · rw [if_neg hp]
        exact ih _ (dirInv_delete p h1) (pathsUnique_delete p h2)
  obtain ⟨h1, h2⟩ := main allIndexed c hc hu
  by_cases hroot : seen.contains ("/" ++ label)
  · simp only [if_pos hroot]
    exact ⟨h1, h2⟩
  · simp only [if_neg hroot]
    exact ⟨dirInv_delete _ h1, pathsUnique_delete _ h2⟩

theorem updateHashText_map_shape (p : String) (res : EnrichResult) (c : Catalog) :
    ∀ r' ∈ (updateHashText p res c).files, ∃ r ∈ c.files,
      r'.path = r.path ∧ r'.is_directory = r.is_directory ∧
      (r.path ≠ p → r' = r) := by
  intro r' hr'
  obtain ⟨r, hr, hrr⟩ := List.mem_map.mp hr'
  refine ⟨r, hr, ?_⟩
  by_cases hp : r.path = p
  · rw [← hrr, if_pos hp]
    exact ⟨rfl, rfl, fun hc => absurd hp hc⟩
  · rw [← hrr, if_neg hp]
    exact ⟨rfl, rfl, fun _ => rfl⟩

theorem updateHashText_pathsUnique (p : String) (res : EnrichResult)
    {c : Catalog} (hc : c.pathsUnique) : (updateHashText p res c).pathsUnique := by
  unfold Catalog.pathsUnique updateHashText
  simp only [List.map_map]
  have : ((fun r : FileRow => r.path) ∘ (fun r : FileRow =>
      if r.path = p then
        { r with file_hash := res.file_hash.orElse (fun _ => r.file_hash),
                 full_text := res.full_text.orElse (fun _ => r.full_text) }
      else r)) = fun r : FileRow => r.path := by
    funext r
    by_cases hp : r.path = p <;> simp [Function.comp, hp]
  rw [this]
  exact hc

theorem phase2_enrich_preserves (enrich : FileRow → Option EnrichResult)
    {c : Catalog} (hu : c.pathsUnique) (hd : dirInv c) :
    dirInv (phase2_enrich enrich c) ∧ (phase2_enrich enrich c).pathsUnique := by
  unfold phase2_enrich
  have hinj := List.inj_on_of_nodup_map hu
  set tp := (c.files.filter (fun r =>
    r.is_directory = false ∧ r.file_hash = none)).map (·.path) with htp
  have hinit : ∀ r ∈ c.files, r.is_directory = true → r.path ∉ tp := by
    intro r hr hdir hmem
    obtain ⟨t, ht, htr⟩ := List.mem_map.mp hmem
    have htc := List.mem_of_mem_filter ht
    have htprop := List.of_mem_filter ht
    simp only [decide_eq_true_eq] at htprop
    have hteq : t = r := hinj htc hr htr
    rw [hteq] at htprop
    have h1 := htprop.1
    rw [hdir] at h1
    exact absurd h1 (by decide)
  have main : ∀ (ts : List FileRow) (cc : Catalog),
      (∀ t ∈ ts, t.path ∈ tp) →
      dirInv cc → cc.pathsUnique →
      (∀ r ∈ cc.files, r.is_directory = true → r.path ∉ tp) →
      dirInv (ts.foldl (fun cc t =>
        match enrich t with
        | none => cc
        | some res =>
          let cc := if res.file_hash.isSome ∨ res.full_text.isSome then
            updateHashText t.path res cc else cc
          match res.metadata with
          | some m => insertOrReplaceMeta t.path m cc
          | none => cc) cc) ∧
      (ts.foldl (fun cc t =>
        match enrich t with
        | none => cc
        | some res =>
          let cc := if res.file_hash.isSome ∨ res.full_text.isSome then
            updateHashText t.path res cc else cc
          match res.metadata with
          | some m => insertOrReplaceMeta t.path m cc
          | none => cc) cc).pathsUnique := by
    intro ts
    induction ts with
    | nil => exact fun cc _ h1 h2 _ => ⟨h1, h2⟩
    | cons t ts' ih =>
      intro cc hts h1 h2 h3
      rw [List.foldl_cons]
      have htp : t.path ∈ tp := hts t (by simp)
      have step : ∀ cc' : Catalog, dirInv cc' → cc'.pathsUnique →
          (∀ r ∈ cc'.files, r.is_directory = true → r.path ∉ tp) →
          dirInv (match enrich t with
            | none => cc'
            | some res =>
              let cc := if res.file_hash.isSome ∨ res.full_text.isSome then
                updateHashText t.path res cc' else cc'
              match res.metadata with
              | some m => insertOrReplaceMeta t.path m cc
              | none => cc) ∧
          (match enrich t with
            | none => cc'
            | some res =>
              let cc := if res.file_hash.isSome ∨ res.full_text.isSome then
                updateHashText t.path res cc' else cc'
              match res.metadata with
              | some m => insertOrReplaceMeta t.path m cc
              | none => cc).pathsUnique ∧
          (∀ r ∈ (match enrich t with
            | none => cc'
            | some res =>
              let cc := if res.file_hash.isSome ∨ res.full_text.isSome then
                updateHashText t.path res cc' else cc'
              match res.metadata with
              | some m => insertOrReplaceMeta t.path m cc
              | none => cc).files, r.is_directory = true → r.path ∉ tp) := by
        intro cc' h1' h2' h3'
        rcases he : enrich t with _ | res
        · exact ⟨h1', h2', h3'⟩
        · have core : ∀ cc2 : Catalog, dirInv cc2 → cc2.pathsUnique →
              (∀ r ∈ cc2.files, r.is_directory = true → r.path ∉ tp) →
              dirInv (updateHashText t.path res cc2) ∧
              (updateHashText t.path res cc2).pathsUnique ∧
              (∀ r ∈ (updateHashText t.path res cc2).files,
                r.is_directory = true → r.path ∉ tp) := by
            intro cc2 g1 g2 g3
            refine ⟨?_, updateHashText_pathsUnique _ _ g2, ?_⟩
            · intro r' hr' hdir
              obtain ⟨r, hr, hpath, hdirEq, hother⟩ :=
                updateHashText_map_shape t.path res cc2 r' hr'
              have hrdir : r.is_directory = true := hdirEq ▸ hdir
              by_cases hp : r.path = t.path
              · exact absurd (hp ▸ htp) (g3 r hr hrdir)
              · rw [hother hp]
                exact g1 r hr hrdir
            · intro r' hr' hdir
              obtain ⟨r, hr, hpath, hdirEq, _⟩ :=
                updateHashText_map_shape t.path res cc2 r' hr'
              rw [hpath]
              exact g3 r hr (hdirEq ▸ hdir)
          have meta : ∀ cc2 : Catalog, dirInv cc2 → cc2.pathsUnique →
              (∀ r ∈ cc2.files, r.is_directory = true → r.path ∉ tp) →
              ∀ m, dirInv (insertOrReplaceMeta t.path m cc2) ∧
              (insertOrReplaceMeta t.path m cc2).pathsUnique ∧
              (∀ r ∈ (insertOrReplaceMeta t.path m cc2).files,
                r.is_directory = true → r.path ∉ tp) := by
            intro cc2 g1 g2 g3 m
            exact ⟨g1, g2, g3⟩
          by_cases hflag : res.file_hash.isSome ∨ res.full_text.isSome
          · obtain ⟨k1, k2, k3⟩ := core cc' h1' h2' h3'
            simp only [if_pos hflag]
            rcases res.metadata with _ | m
            · exact ⟨k1, k2, k3⟩
            · exact meta _ k1 k2 k3 m
          · simp only [if_neg hflag]
            rcases res.metadata with _ | m
            · exact ⟨h1', h2', h3'⟩
            · exact meta _ h1' h2' h3' m
      obtain ⟨k1, k2, k3⟩ := step cc h1 h2 h3
      exact ih _ (fun x hx => hts x (by simp [hx])) k1 k2 k3
  exact main _ c (fun t ht => List.mem_map_of_mem _ ht) hd hu hinit

/-- The loop invariant of Phase 1: the visible catalog satisfies the
directory invariant with unique paths, and every pending batch row does. -/
def P1Inv (s : P1State) : Prop :=
  dirInv s.cat ∧ s.cat.pathsUnique ∧
  ∀ r ∈ s.batch, r.is_directory = true →
    r.size = 0 ∧ r.file_hash = none ∧ r.full_text = none

theorem goodBatch_append_file (batch : List FileRow)
    (h3 : ∀ r ∈ batch, r.is_directory = true →
      r.size = 0 ∧ r.file_hash = none ∧ r.full_text = none)
    (row : FileRow) (hrow : row.is_directory = false) :
    ∀ r ∈ batch ++ [row], r.is_directory = true →
      r.size = 0 ∧ r.file_hash = none ∧ r.full_text = none := by
  intro r hr
  rcases List.mem_append.mp hr with hm | hm
  · exact h3 r hm
  · rcases List.mem_singleton.mp hm with rfl
    intro hd
    rw [hrow] at hd
    exact absurd hd (by decide)

theorem p1FileStep_preserves (ctx : P1Ctx)
    (existing : List (String × Option String)) (full : Bool)
    (dirpath relDir : String) (s : P1State) (filename : String)
    (h : P1Inv s) : P1Inv (p1FileStep ctx existing full dirpath relDir s filename) := by
  obtain ⟨h1, h2, h3⟩ := h
  simp only [p1FileStep]
  split
  · exact ⟨h1, h2, h3⟩
  · split
    · exact ⟨h1, h2, h3⟩
    · repeat' split
      all_goals
        first
          | exact ⟨dirInv_flushBatch h1 (goodBatch_append_file _ h3 _ rfl),
              pathsUnique_flushBatch _ h2, by simp⟩
          | exact ⟨h1, h2, goodBatch_append_file _ h3 _ rfl⟩

theorem foldl_fileStep_preserves (ctx : P1Ctx)
    (existing : List (String × Option String)) (full : Bool)
    (dirpath relDir : String) :
    ∀ (files : List String) (s : P1State), P1Inv s →
      P1Inv (files.foldl (p1FileStep ctx existing full dirpath relDir) s) := by
  intro files
  induction files with
  | nil => exact fun s h => h
  | cons fn fns ih =>
    intro s h
    rw [List.foldl_cons]
    exact ih _ (p1FileStep_preserves ctx existing full dirpath relDir s fn h)

theorem p1Entry_preserves (ctx : P1Ctx)
    (existing : List (String × Option String)) (full : Bool)
    (s : P1State) (entry : String × List String)
    (h : P1Inv s) : P1Inv (p1Entry ctx existing full s entry) := by
  simp only [p1Entry]
  apply foldl_fileStep_preserves
  refine ⟨h.1, h.2.1, ?_⟩
  intro r hr
  rcases List.mem_append.mp hr with hm | hm
  · exact h.2.2 r hm
  · rcases List.mem_singleton.mp hm with rfl
    exact fun _ => ⟨rfl, rfl, rfl⟩

theorem foldl_entry_preserves (ctx : P1Ctx)
    (existing : List (String × Option String)) (full : Bool) :
    ∀ (entries : List (String × List String)) (s : P1State), P1Inv s →
      P1Inv (entries.foldl (p1Entry ctx existing full) s) := by
  intro entries
  induction entries with
  | nil => exact fun s h => h
  | cons e es ih =>
    intro s h
    rw [List.foldl_cons]
    exact ih _ (p1Entry_preserves ctx existing full s e h)

theorem phase1_index_preserves (ctx : P1Ctx) (cancelAt : Option Nat)
    (full : Bool) (cat : Catalog) (st : ScanState)
    (hu : cat.pathsUnique) (hd : dirInv cat) :
    dirInv (phase1_index ctx cancelAt full cat st).1 ∧
      (phase1_index ctx cancelAt full cat st).1.pathsUnique := by
  simp only [phase1_index]
  have hfold := foldl_entry_preserves ctx
    (if full then [] else loadExisting cat ctx.source.effLabel) full
    (match cancelAt with
      | none => ctx.R.walkEntries
      | some k => ctx.R.walkEntries.take k)
    ⟨cat, [], [], { st with current_source := ctx.source.effLabel, phase := "indexing" }⟩
    ⟨hd, hu, by simp⟩
  set s := (match cancelAt with
    | none => ctx.R.walkEntries
    | some k => ctx.R.walkEntries.take k).foldl
      (p1Entry ctx (if full then [] else loadExisting cat ctx.source.effLabel) full)
      ⟨cat, [], [], { st with current_source := ctx.source.effLabel, phase := "indexing" }⟩ with hs
  obtain ⟨k1, k2, k3⟩ := hfold
  have hcat2 : dirInv (if s.batch ≠ [] then flushBatch s.cat s.batch else s.cat) ∧
      (if s.batch ≠ [] then flushBatch s.cat s.batch else s.cat).pathsUnique := by
    split
    · exact ⟨dirInv_flushBatch k1 k3, pathsUnique_flushBatch _ k2⟩
    · exact ⟨k1, k2⟩
  have htag : dirInv (apply_tags_bulk ctx.parse ctx.source.effLabel
        (if s.batch ≠ [] then flushBatch s.cat s.batch else s.cat)) ∧
      (apply_tags_bulk ctx.parse ctx.source.effLabel
        (if s.batch ≠ [] then flushBatch s.cat s.batch else s.cat)).pathsUnique := by
    constructor
    · intro r hr
      rw [apply_tags_bulk_files] at hr
      exact hcat2.1 r hr
    · unfold Catalog.pathsUnique
      rw [apply_tags_bulk_files]
      exact hcat2.2
  split
  · exact remove_stale_preserves s.st ctx.source.effLabel s.seen htag.1 htag.2
  · exact htag

/-- C5: from any catalog with unique paths in which every directory row
has zero size, no fingerprint and no text, any sequence of scan
operations (Phase 1 passes — full, incremental or cancelled — tag
application, stale-row removal, Phase 2 enrichment) preserves that
directory-row invariant. -/
theorem C5_directory_invariant (ops : List ScanOp) (c : Catalog)
    (hu : c.pathsUnique) (hd : dirInv c) :
    dirInv (ops.foldl ScanOp.run c) ∧ (ops.foldl ScanOp.run c).pathsUnique := by
  induction ops generalizing c with
  | nil => exact ⟨hd, hu⟩
  | cons op ops' ih =>
    rw [List.foldl_cons]
    have hstep : dirInv (ScanOp.run c op) ∧ (ScanOp.run c op).pathsUnique := by
      cases op with
      | phase1 ctx cancelAt full st => exact phase1_index_preserves ctx cancelAt full c st hu hd
      | applyTags parse label =>
        constructor
        · intro r hr
          rw [ScanOp.run, apply_tags_bulk_files] at hr
          exact hd r hr
        · show ((apply_tags_bulk parse label c).files.map (·.path)).Nodup
          rw [apply_tags_bulk_files]
          exact hu
      | removeStale st label seen => exact remove_stale_preserves st label seen hd hu
      | phase2 enrich => exact phase2_enrich_preserves enrich hu hd
    exact ih _ hstep.2 hstep.1

/-- Witness for C5: a full Phase-1 pass over a one-file share followed by
a Phase-2 pass, from the empty catalog. -/
theorem C5_directory_invariant_witness :
    dirInv ([ScanOp.phase1
        ⟨(fun _ => "application/octet-stream"), (fun _ => none), 1000,
          ⟨"nas", "media", "u", "p", "/", "media"⟩,
          ⟨[("\\\\nas\\media", ["a.txt"])],
            [("\\\\nas\\media", ⟨0, "m0", "c0"⟩),
             ("\\\\nas\\media\\a.txt", ⟨5, "m1", "c1"⟩)]⟩, "t0"⟩
        none true (freshScanState "t0"),
      ScanOp.phase2 (fun _ => none)].foldl ScanOp.run Catalog.empty) ∧
    ([ScanOp.phase1
        ⟨(fun _ => "application/octet-stream"), (fun _ => none), 1000,
          ⟨"nas", "media", "u", "p", "/", "media"⟩,
          ⟨[("\\\\nas\\media", ["a.txt"])],
            [("\\\\nas\\media", ⟨0, "m0", "c0"⟩),
             ("\\\\nas\\media\\a.txt", ⟨5, "m1", "c1"⟩)]⟩, "t0"⟩
        none true (freshScanState "t0"),
      ScanOp.phase2 (fun _ => none)].foldl ScanOp.run Catalog.empty).pathsUnique :=
  C5_directory_invariant _ Catalog.empty
    (by simp [Catalog.pathsUnique, Catalog.empty]) (by decide)

-- ─── C3: an unchanged share makes the second incremental scan a no-op ───

theorem find?_key_unique {α β : Type} [DecidableEq β] (key : α → β) :
    ∀ (l : List α), ((l.map key).Nodup) → ∀ x ∈ l,
      l.find? (fun y => key y = key x) = some x := by
  intro l
  induction l with
  | nil => intro _ x hx; exact absurd hx (List.not_mem_nil x)
  | cons a t ih =>
    intro hn x hx
    rw [List.map_cons, List.nodup_cons] at hn
    rcases List.mem_cons.mp hx with rfl | hxt
    · rw [List.find?_cons_of_pos _ (by simp)]
    · by_cases hk : key a = key x
      · exact absurd (hk ▸ List.mem_map_of_mem key hxt) hn.1
      · rw [List.find?_cons_of_neg _ (by simpa using hk)]
        exact ih hn.2 x hxt

theorem find?_filter_of_imp {α : Type} (q b : α → Bool) :
    ∀ (l : List α), (∀ x, q x = true → b x = true) →
      (l.filter b).find? q = l.find? q := by
  intro l h
  induction l with
  | nil => rfl
  | cons a t ih =>
    by_cases hb : b a
    · rw [List.filter_cons_of_pos hb]
      by_cases hq : q a
      · rw [List.find?_cons_of_pos _ hq, List.find?_cons_of_pos _ hq]
      · rw [List.find?_cons_of_neg _ (by simpa using hq),
          List.find?_cons_of_neg _ (by simpa using hq)]
        exact ih
    · rw [List.filter_cons_of_neg (by simpa using hb)]
      have hq : ¬ q a = true := fun hqa => hb (h a hqa)
      rw [List.find?_cons_of_neg _ (by simpa using hq)]
      exact ih

theorem lookup_insertOrReplace (r : FileRow) (c : Catalog) (p : String) :
    (insertOrReplaceFile r c).lookup p =
      if r.path = p then some r else c.lookup p := by
  unfold Catalog.lookup insertOrReplaceFile
  by_cases hp : r.path = p
  · rw [if_pos hp, List.find?_cons_of_pos _ (by simpa using hp)]
  · rw [if_neg hp, List.find?_cons_of_neg _ (by simpa using hp)]
    apply find?_filter_of_imp
    intro x hx
    simp only [decide_eq_true_eq] at hx ⊢
    intro hxe
    exact hp (hxe.symm.trans hx)

theorem flushBatch_append (c : Catalog) (a b : List FileRow) :
    flushBatch c (a ++ b) = flushBatch (flushBatch c a) b := by
  unfold flushBatch
  exact List.foldl_append _ _ _ _

theorem lookup_flushBatch (c : Catalog) (rows : List FileRow) (p : String) :
    (flushBatch c rows).lookup p =
      (rows.reverse.find? (fun r => r.path = p)).or (c.lookup p) := by
  induction rows using List.reverseRecOn generalizing c with
  | nil => rfl
  | append_singleton rs r ih =>
    rw [flushBatch_append, List.reverse_append]
    show (flushBatch (flushBatch c rs) [r]).lookup p = _
    have : flushBatch (flushBatch c rs) [r] = insertOrReplaceFile r (flushBatch c rs) := rfl
    rw [this, lookup_insertOrReplace]
    simp only [List.reverse_cons, List.reverse_nil, List.nil_append, List.cons_append,
      List.singleton_append]
    by_cases hp : r.path = p
    · rw [if_pos hp, List.find?_cons_of_pos _ (by simpa using hp)]
      rfl
    · rw [if_neg hp, List.find?_cons_of_neg _ (by simpa using hp)]
      exact ih c

theorem mem_flushBatch_preserved (rows : List FileRow) :
    ∀ (c : Catalog) (r : FileRow), r ∈ c.files →
      (∀ w ∈ rows, w.path ≠ r.path) → r ∈ (flushBatch c rows).files := by
  induction rows with
  | nil => exact fun c r hr _ => hr
  | cons w t ih =>
    intro c r hr hfresh
    apply ih _ r
    · show r ∈ w :: c.files.filter (fun x => x.path ≠ w.path)
      apply List.mem_cons.mpr
      right
      apply List.mem_filter.mpr
      refine ⟨hr, ?_⟩
      simp only [decide_eq_true_eq, ne_eq, decide_not, Bool.not_eq_eq_eq_not,
        Bool.not_true, decide_eq_false_iff_not]
      exact fun he => hfresh w (List.mem_cons_self _ _) he.symm
    · exact fun x hx => hfresh x (by simp [hx])

theorem lookup_of_mem_unique {c : Catalog} (hu : c.pathsUnique)
    {r : FileRow} (hr : r ∈ c.files) : c.lookup r.path = some r :=
  find?_key_unique (fun x : FileRow => x.path) c.files hu r hr

theorem filterMap_cons_toList {α β : Type} (g : α → Option β) (a : α) (l : List α) :
    (a :: l).filterMap g = (g a).toList ++ l.filterMap g := by
  cases h : g a <;> simp [List.filterMap_cons, h]

theorem countAdded_append (a b : List Bool) :
    countAdded (a ++ b) = countAdded a + countAdded b := by
  simp [countAdded, List.filter_append]

theorem countUpdated_append (a b : List Bool) :
    countUpdated (a ++ b) = countUpdated a + countUpdated b := by
  simp [countUpdated, List.filter_append]

theorem flushBatch_nil (c : Catalog) : flushBatch c [] = c := rfl

theorem p1FileStep_net (ctx : P1Ctx) (existing : List (String × Option String))
    (full : Bool) (dirpath relDir : String) (s : P1State) (fn : String) :
    flushBatch (p1FileStep ctx existing full dirpath relDir s fn).cat
        (p1FileStep ctx existing full dirpath relDir s fn).batch =
      flushBatch (flushBatch s.cat s.batch)
        ((genFileRow ctx existing full dirpath relDir fn).toList.map (fun rb => rb.1)) ∧
    (p1FileStep ctx existing full dirpath relDir s fn).st.files_added =
      s.st.files_added + countAdded
        ((genFileRow ctx existing full dirpath relDir fn).toList.map (fun rb => rb.2)) ∧
    (p1FileStep ctx existing full dirpath relDir s fn).st.files_updated =
      s.st.files_updated + countUpdated
        ((genFileRow ctx existing full dirpath relDir fn).toList.map (fun rb => rb.2)) ∧
    (p1FileStep ctx existing full dirpath relDir s fn).seen =
      s.seen ++ [smb_to_relative (pyRstripChar bslashChar dirpath ++ "\\" ++ fn)
        ctx.source] := by
  simp only [p1FileStep, genFileRow]
  rcases h : statOf ctx.R (pyRstripChar bslashChar dirpath ++ "\\" ++ fn) with _ | info
  · simp [h, countAdded, countUpdated, flushBatch_nil]
  · simp only [h]
    by_cases hskip : ¬ full ∧ existingLookup existing
        (smb_to_relative (pyRstripChar bslashChar dirpath ++ "\\" ++ fn) ctx.source) =
        some (some info.mtimeIso)
    · simp [hskip, countAdded, countUpdated, flushBatch_nil]
    · simp only [if_neg hskip, Option.toList_some, List.map_cons, List.map_nil]
      by_cases hup : (existingLookup existing
          (smb_to_relative (pyRstripChar bslashChar dirpath ++ "\\" ++ fn)
            ctx.source)).isSome = true
      · simp only [hup, if_true]
        refine ⟨?_, ?_, ?_, ?_⟩ <;>
          (split <;> simp [countAdded, countUpdated, flushBatch_append, flushBatch_nil])
      · simp only [Bool.not_eq_true] at hup
        simp only [hup, Bool.false_eq_true, if_false]
        refine ⟨?_, ?_, ?_, ?_⟩ <;>
          (split <;> simp [countAdded, countUpdated, flushBatch_append, flushBatch_nil])

theorem p1Files_net (ctx : P1Ctx) (existing : List (String × Option String))
    (full : Bool) (dirpath relDir : String) :
    ∀ (fns : List String) (s : P1State),
      flushBatch (fns.foldl (p1FileStep ctx existing full dirpath relDir) s).cat
          (fns.foldl (p1FileStep ctx existing full dirpath relDir) s).batch =
        flushBatch (flushBatch s.cat s.batch)
          ((fns.filterMap (genFileRow ctx existing full dirpath relDir)).map
            (fun rb => rb.1)) ∧
      (fns.foldl (p1FileStep ctx existing full dirpath relDir) s).st.files_added =
        s.st.files_added + countAdded
          ((fns.filterMap (genFileRow ctx existing full dirpath relDir)).map
            (fun rb => rb.2)) ∧
      (fns.foldl (p1FileStep ctx existing full dirpath relDir) s).st.files_updated =
        s.st.files_updated + countUpdated
          ((fns.filterMap (genFileRow ctx existing full dirpath relDir)).map
            (fun rb => rb.2)) ∧
      (fns.foldl (p1FileStep ctx existing full dirpath relDir) s).seen =
        s.seen ++ fns.map (fun fn =>
          smb_to_relative (pyRstripChar bslashChar dirpath ++ "\\" ++ fn) ctx.source) := by
  intro fns
  induction fns with
  | nil => intro s; simp [countAdded, countUpdated, flushBatch_nil]
  | cons fn t ih =>
    intro s
    obtain ⟨h1, h2, h3, h4⟩ := p1FileStep_net ctx existing full dirpath relDir s fn
    obtain ⟨g1, g2, g3, g4⟩ := ih (p1FileStep ctx existing full dirpath relDir s fn)
    rw [filterMap_cons_toList]
    refine ⟨?_, ?_, ?_, ?_⟩
    · rw [List.foldl_cons, g1, h1, List.map_append, flushBatch_append]
    · rw [List.foldl_cons, g2, h2, List.map_append, countAdded_append, Nat.add_assoc]
    · rw [List.foldl_cons, g3, h3, List.map_append, countUpdated_append, Nat.add_assoc]
    · rw [List.foldl_cons, g4, h4, List.map_cons, List.append_assoc,
        List.singleton_append]

theorem flushBatch_cons (c : Catalog) (r : FileRow) (rows : List FileRow) :
    flushBatch c (r :: rows) = flushBatch (insertOrReplaceFile r c) rows := rfl

theorem p1Files_net_cat (ctx : P1Ctx) (existing : List (String × Option String))
    (full : Bool) (dirpath relDir : String) (fns : List String) (s : P1State) :
    flushBatch (fns.foldl (p1FileStep ctx existing full dirpath relDir) s).cat
        (fns.foldl (p1FileStep ctx existing full dirpath relDir) s).batch =
      flushBatch (flushBatch s.cat s.batch)
        ((fns.filterMap (genFileRow ctx existing full dirpath relDir)).map
          (fun rb => rb.1)) :=
  (p1Files_net ctx existing full dirpath relDir fns s).1

theorem p1Files_net_added (ctx : P1Ctx) (existing : List (String × Option String))
    (full : Bool) (dirpath relDir : String) (fns : List String) (s : P1State) :
    (fns.foldl (p1FileStep ctx existing full dirpath relDir) s).st.files_added =
      s.st.files_added + countAdded
        ((fns.filterMap (genFileRow ctx existing full dirpath relDir)).map
          (fun rb => rb.2)) :=
  (p1Files_net ctx existing full dirpath relDir fns s).2.1

theorem p1Files_net_updated (ctx : P1Ctx) (existing : List (String × Option String))
    (full : Bool) (dirpath relDir : String) (fns : List String) (s : P1State) :
    (fns.foldl (p1FileStep ctx existing full dirpath relDir) s).st.files_updated =
      s.st.files_updated + countUpdated
        ((fns.filterMap (genFileRow ctx existing full dirpath relDir)).map
          (fun rb => rb.2)) :=
  (p1Files_net ctx existing full dirpath relDir fns s).2.2.1

theorem p1Files_net_seen (ctx : P1Ctx) (existing : List (String × Option String))
    (full : Bool) (dirpath relDir : String) (fns : List String) (s : P1State) :
    (fns.foldl (p1FileStep ctx existing full dirpath relDir) s).seen =
      s.seen ++ fns.map (fun fn =>
        smb_to_relative (pyRstripChar bslashChar dirpath ++ "\\" ++ fn) ctx.source) :=
  (p1Files_net ctx existing full dirpath relDir fns s).2.2.2

theorem p1Entry_net (ctx : P1Ctx) (existing : List (String × Option String))
    (full : Bool) (s : P1State) (e : String × List String) :
    flushBatch (p1Entry ctx existing full s e).cat
        (p1Entry ctx existing full s e).batch =
      flushBatch (flushBatch s.cat s.batch) (genEntryRows ctx existing full e) ∧
    (p1Entry ctx existing full s e).st.files_added =
      s.st.files_added + countAdded
        ((genEntryFiles ctx existing full e).map (fun rb => rb.2)) ∧
    (p1Entry ctx existing full s e).st.files_updated =
      s.st.files_updated + countUpdated
        ((genEntryFiles ctx existing full e).map (fun rb => rb.2)) ∧
    (p1Entry ctx existing full s e).seen = s.seen ++ seenOfEntry ctx e := by
  simp only [p1Entry, genEntryRows, genEntryFiles, seenOfEntry, genDirRow]
  refine ⟨?_, ?_, ?_, ?_⟩
  · rw [p1Files_net_cat]
    dsimp only
    rw [flushBatch_append, flushBatch_cons, flushBatch_nil, flushBatch_cons]
  · rw [p1Files_net_added]
  · rw [p1Files_net_updated]
  · rw [p1Files_net_seen]
    dsimp only
    simp [List.append_assoc]

theorem p1Entries_net (ctx : P1Ctx) (existing : List (String × Option String))
    (full : Bool) :
    ∀ (entries : List (String × List String)) (s : P1State),
      flushBatch ((entries.foldl (p1Entry ctx existing full) s)).cat
          ((entries.foldl (p1Entry ctx existing full) s)).batch =
        flushBatch (flushBatch s.cat s.batch) (genRows ctx existing full entries) ∧
      (entries.foldl (p1Entry ctx existing full) s).st.files_added =
        s.st.files_added + countAdded (genFlags ctx existing full entries) ∧
      (entries.foldl (p1Entry ctx existing full) s).st.files_updated =
        s.st.files_updated + countUpdated (genFlags ctx existing full entries) ∧
      (entries.foldl (p1Entry ctx existing full) s).seen =
        s.seen ++ seenOf ctx entries := by
  intro entries
  induction entries with
  | nil => intro s; simp [genRows, genFlags, seenOf, countAdded, countUpdated,
      flushBatch_nil]
  | cons e t ih =>
    intro s
    obtain ⟨h1, h2, h3, h4⟩ := p1Entry_net ctx existing full s e
    obtain ⟨g1, g2, g3, g4⟩ := ih (p1Entry ctx existing full s e)
    refine ⟨?_, ?_, ?_, ?_⟩
    · rw [List.foldl_cons, g1, h1]
      simp only [genRows, List.flatMap_cons]
      rw [flushBatch_append]
    · rw [List.foldl_cons, g2, h2]
      simp only [genFlags, List.flatMap_cons, countAdded_append]
      omega
    · rw [List.foldl_cons, g3, h3]
      simp only [genFlags, List.flatMap_cons, countUpdated_append]
      omega
    · rw [List.foldl_cons, g4, h4]
      simp only [seenOf, List.flatMap_cons, List.append_assoc]

theorem flushBatch_if (c : Catalog) (b : List FileRow) :
    (if b ≠ [] then flushBatch c b else c) = flushBatch c b := by
  split
  · rfl
  · rename_i h
    rw [not_not.mp h]
    exact (flushBatch_nil c).symm

theorem remove_stale_added (c : Catalog) (st : ScanState) (l : String)
    (sn : List String) : (remove_stale c st l sn).2.files_added = st.files_added := rfl

theorem remove_stale_updated (c : Catalog) (st : ScanState) (l : String)
    (sn : List String) : (remove_stale c st l sn).2.files_updated = st.files_updated := rfl

theorem remove_stale_fst (c : Catalog) (l : String) (sn : List String)
    (st1 st2 : ScanState) :
    (remove_stale c st1 l sn).1 = (remove_stale c st2 l sn).1 := rfl

theorem phase1_index_net (ctx : P1Ctx) (full : Bool) (cat : Catalog)
    (st : ScanState) :
    (phase1_index ctx none full cat st).1 =
      (if full then
        (remove_stale
          (apply_tags_bulk ctx.parse ctx.source.effLabel
            (flushBatch cat (genRows ctx
              (if full then [] else loadExisting cat ctx.source.effLabel) full
              ctx.R.walkEntries)))
          st ctx.source.effLabel (seenOf ctx ctx.R.walkEntries)).1
      else
        apply_tags_bulk ctx.parse ctx.source.effLabel
          (flushBatch cat (genRows ctx
            (if full then [] else loadExisting cat ctx.source.effLabel) full
            ctx.R.walkEntries))) ∧
    (phase1_index ctx none full cat st).2.1.files_added =
      st.files_added + countAdded (genFlags ctx
        (if full then [] else loadExisting cat ctx.source.effLabel) full
        ctx.R.walkEntries) ∧
    (phase1_index ctx none full cat st).2.1.files_updated =
      st.files_updated + countUpdated (genFlags ctx
        (if full then [] else loadExisting cat ctx.source.effLabel) full
        ctx.R.walkEntries) ∧
    (phase1_index ctx none full cat st).2.2 = seenOf ctx ctx.R.walkEntries := by
  by_cases hfull : full = true
  · subst hfull
    obtain ⟨g1, g2, g3, g4⟩ := p1Entries_net ctx [] true ctx.R.walkEntries
      (P1State.mk cat [] []
        { st with current_source := ctx.source.effLabel, phase := "indexing" })
    dsimp only at g1 g2 g3 g4
    rw [flushBatch_nil] at g1
    rw [List.nil_append] at g4
    simp only [phase1_index, reduceIte, Option.isSome_none, Bool.false_eq_true,
      not_false_iff, and_true, true_and, false_and, if_true, if_false]
    refine ⟨?_, ?_, ?_, ?_⟩
    · rw [flushBatch_if, g1, g4]
      rfl
    · rw [remove_stale_added, g2]
    · rw [remove_stale_updated, g3]
    · exact g4
  · rw [Bool.not_eq_true] at hfull
    subst hfull
    obtain ⟨g1, g2, g3, g4⟩ := p1Entries_net ctx
      (loadExisting cat ctx.source.effLabel) false ctx.R.walkEntries
      (P1State.mk cat [] []
        { st with current_source := ctx.source.effLabel, phase := "indexing" })
    dsimp only at g1 g2 g3 g4
    rw [flushBatch_nil] at g1
    rw [List.nil_append] at g4
    simp only [phase1_index, reduceIte, Option.isSome_none, Bool.false_eq_true,
      not_false_iff, and_true, true_and, false_and, if_true, if_false]
    refine ⟨?_, ?_, ?_, ?_⟩
    · rw [flushBatch_if, g1]
    · exact g2
    · exact g3
    · exact g4

theorem genFileRow_inv (ctx : P1Ctx) (ex : List (String × Option String))
    (full : Bool) (d rd fn : String) {row : FileRow} {b : Bool}
    (h : genFileRow ctx ex full d rd fn = some (row, b)) :
    ∃ info, statOf ctx.R (pyRstripChar bslashChar d ++ "\\" ++ fn) = some info ∧
      row = { path := smb_to_relative (pyRstripChar bslashChar d ++ "\\" ++ fn)
                ctx.source,
              name := fn, parent_path := some rd, is_directory := false,
              size := info.size,
              mime_type := some (ctx.mimeOf (pyRstripChar bslashChar d ++ "\\" ++ fn)),
              file_hash := none, created_at := some info.ctimeIso,
              modified_at := some info.mtimeIso, indexed_at := ctx.nowIso,
              full_text := none } := by
  simp only [genFileRow] at h
  rcases hs : statOf ctx.R (pyRstripChar bslashChar d ++ "\\" ++ fn) with _ | info
  · simp only [hs] at h
    exact Option.noConfusion h
  · simp only [hs] at h
    by_cases hskip : ¬ full = true ∧ existingLookup ex
        (smb_to_relative (pyRstripChar bslashChar d ++ "\\" ++ fn) ctx.source) =
        some (some info.mtimeIso)
    · rw [if_pos hskip] at h
      exact Option.noConfusion h
    · rw [if_neg hskip] at h
      simp only [Option.some.injEq, Prod.mk.injEq] at h
      exact ⟨info, rfl, h.1.symm⟩

theorem genEntryFiles_paths_sublist (ctx : P1Ctx)
    (ex : List (String × Option String)) (full : Bool) (d rd : String) :
    ∀ (fns : List String),
      ((fns.filterMap (genFileRow ctx ex full d rd)).map (fun rb => rb.1.path)).Sublist
        (fns.map (fun fn =>
          smb_to_relative (pyRstripChar bslashChar d ++ "\\" ++ fn) ctx.source)) := by
  intro fns
  induction fns with
  | nil => simp
  | cons fn t ih =>
    rw [filterMap_cons_toList, List.map_append, List.map_cons]
    rcases h : genFileRow ctx ex full d rd fn with _ | rb
    · exact List.Sublist.cons _ (by simpa using ih)
    · obtain ⟨info, _, hrow⟩ := genFileRow_inv ctx ex full d rd fn h
      simp only [Option.toList_some, List.map_cons, List.map_nil,
        List.singleton_append]
      have hpath : rb.1.path =
          smb_to_relative (pyRstripChar bslashChar d ++ "\\" ++ fn) ctx.source := by
        rw [hrow]
      rw [hpath]
      exact List.Sublist.cons₂ _ ih

theorem genRows_paths_sublist (ctx : P1Ctx) (ex : List (String × Option String))
    (full : Bool) :
    ∀ (entries : List (String × List String)),
      ((genRows ctx ex full entries).map (fun r => r.path)).Sublist
        (seenOf ctx entries) := by
  intro entries
  induction entries with
  | nil => simp [genRows, seenOf]
  | cons e t ih =>
    simp only [genRows, seenOf, List.flatMap_cons, List.map_append]
    apply List.Sublist.append _ (by simpa [genRows, seenOf] using ih)
    simp only [genEntryRows, seenOfEntry, List.map_cons]
    apply List.Sublist.cons₂
    simp only [List.map_map]
    have : ((fun r : FileRow => r.path) ∘ (fun rb : FileRow × Bool => rb.1)) =
        fun rb : FileRow × Bool => rb.1.path := rfl
    rw [this]
    exact genEntryFiles_paths_sublist ctx ex full e.1
      (smb_to_relative e.1 ctx.source) e.2

theorem mem_genRows_of_file {ctx : P1Ctx} {ex : List (String × Option String)}
    {full : Bool} {entries : List (String × List String)}
    {e : String × List String} (he : e ∈ entries) {fn : String} (hfn : fn ∈ e.2)
    {row : FileRow} {b : Bool}
    (h : genFileRow ctx ex full e.1 (smb_to_relative e.1 ctx.source) fn =
      some (row, b)) :
    row ∈ genRows ctx ex full entries := by
  apply List.mem_flatMap.mpr
  refine ⟨e, he, ?_⟩
  apply List.mem_cons.mpr
  right
  apply List.mem_map.mpr
  refine ⟨(row, b), ?_, rfl⟩
  exact List.mem_filterMap.mpr ⟨fn, hfn, h⟩

theorem genRows_reverse_nodup {ctx : P1Ctx} {ex : List (String × Option String)}
    {full : Bool} {entries : List (String × List String)}
    (hnd : (seenOf ctx entries).Nodup) :
    (((genRows ctx ex full entries).reverse).map (fun r => r.path)).Nodup := by
  rw [List.map_reverse, List.nodup_reverse]
  exact (genRows_paths_sublist ctx ex full entries).nodup hnd

theorem genRows_find_of_some {ctx : P1Ctx} {ex : List (String × Option String)}
    {full : Bool} {entries : List (String × List String)}
    (hnd : (seenOf ctx entries).Nodup)
    {e : String × List String} (he : e ∈ entries) {fn : String} (hfn : fn ∈ e.2)
    {row : FileRow} {b : Bool}
    (h : genFileRow ctx ex full e.1 (smb_to_relative e.1 ctx.source) fn =
      some (row, b)) :
    (genRows ctx ex full entries).reverse.find? (fun r => r.path = row.path) =
      some row :=
  find?_key_unique (fun r : FileRow => r.path) _
    (genRows_reverse_nodup hnd) row
    (List.mem_reverse.mpr (mem_genRows_of_file he hfn h))

theorem genRows_find_dir {ctx : P1Ctx} {ex : List (String × Option String)}
    {full : Bool} {entries : List (String × List String)}
    (hnd : (seenOf ctx entries).Nodup)
    {e : String × List String} (he : e ∈ entries) :
    (genRows ctx ex full entries).reverse.find?
        (fun r => r.path = smb_to_relative e.1 ctx.source) =
      some (genDirRow ctx e) := by
  have hmem : genDirRow ctx e ∈ genRows ctx ex full entries :=
    List.mem_flatMap.mpr ⟨e, he, List.mem_cons_self _ _⟩
  exact find?_key_unique (fun r : FileRow => r.path) _
    (genRows_reverse_nodup hnd) (genDirRow ctx e) (List.mem_reverse.mpr hmem)

theorem not_mem_of_nodup_middle {α : Type} {A B : List α} {x : α}
    (h : (A ++ x :: B).Nodup) : x ∉ A ++ B :=
  (List.nodup_cons.mp (List.nodup_middle.mp h)).1

theorem genRows_find_of_none (ctx : P1Ctx) (ex : List (String × Option String))
    (full : Bool) (E1 E2 : List (String × List String)) (d : String)
    (fs1 fs2 : List String) (fn : String)
    (hnd : (seenOf ctx (E1 ++ (d, fs1 ++ fn :: fs2) :: E2)).Nodup)
    (h : genFileRow ctx ex full d (smb_to_relative d ctx.source) fn = none) :
    (genRows ctx ex full (E1 ++ (d, fs1 ++ fn :: fs2) :: E2)).reverse.find?
      (fun r => r.path =
        smb_to_relative (pyRstripChar bslashChar d ++ "\\" ++ fn) ctx.source) =
      none := by
  have hsub : ((genRows ctx ex full (E1 ++ (d, fs1 ++ fn :: fs2) :: E2)).map
      (fun r => r.path)).Sublist
      ((seenOf ctx E1 ++ smb_to_relative d ctx.source ::
          fs1.map (fun x =>
            smb_to_relative (pyRstripChar bslashChar d ++ "\\" ++ x) ctx.source)) ++
        (fs2.map (fun x =>
            smb_to_relative (pyRstripChar bslashChar d ++ "\\" ++ x) ctx.source) ++
          seenOf ctx E2)) := by
    simp only [genRows, List.flatMap_append, List.flatMap_cons, List.map_append,
      List.append_assoc, List.cons_append]
    apply List.Sublist.append
    · simpa [genRows, seenOf] using genRows_paths_sublist ctx ex full E1
    · simp only [genEntryRows, List.map_cons, List.cons_append]
      have hd : (genDirRow ctx (d, fs1 ++ fn :: fs2)).path =
          smb_to_relative d ctx.source := rfl
      rw [hd]
      apply List.Sublist.cons₂
      simp only [genEntryFiles, List.filterMap_append, filterMap_cons_toList, h,
        Option.toList_none, List.nil_append, List.map_append, List.map_map,
        List.append_assoc]
      apply List.Sublist.append
      · have : ((fun r : FileRow => r.path) ∘ (fun rb : FileRow × Bool => rb.1)) =
            fun rb : FileRow × Bool => rb.1.path := rfl
        rw [this]
        exact genEntryFiles_paths_sublist ctx ex full d
          (smb_to_relative d ctx.source) fs1
      · apply List.Sublist.append
        · have : ((fun r : FileRow => r.path) ∘ (fun rb : FileRow × Bool => rb.1)) =
              fun rb : FileRow × Bool => rb.1.path := rfl
          rw [this]
          exact genEntryFiles_paths_sublist ctx ex full d
            (smb_to_relative d ctx.source) fs2
        · simpa [genRows, seenOf] using genRows_paths_sublist ctx ex full E2
  have hnot : smb_to_relative (pyRstripChar bslashChar d ++ "\\" ++ fn) ctx.source ∉
      ((seenOf ctx E1 ++ smb_to_relative d ctx.source ::
          fs1.map (fun x =>
            smb_to_relative (pyRstripChar bslashChar d ++ "\\" ++ x) ctx.source)) ++
        (fs2.map (fun x =>
            smb_to_relative (pyRstripChar bslashChar d ++ "\\" ++ x) ctx.source) ++
          seenOf ctx E2)) := by
    apply not_mem_of_nodup_middle
    have heq : (seenOf ctx E1 ++ smb_to_relative d ctx.source ::
        fs1.map (fun x =>
          smb_to_relative (pyRstripChar bslashChar d ++ "\\" ++ x) ctx.source)) ++
        smb_to_relative (pyRstripChar bslashChar d ++ "\\" ++ fn) ctx.source ::
        (fs2.map (fun x =>
            smb_to_relative (pyRstripChar bslashChar d ++ "\\" ++ x) ctx.source) ++
          seenOf ctx E2) =
        seenOf ctx (E1 ++ (d, fs1 ++ fn :: fs2) :: E2) := by
      simp [seenOf, seenOfEntry, List.flatMap_append, List.flatMap_cons,
        List.map_append, List.append_assoc]
    rw [heq]
    exact hnd
  apply List.find?_eq_none.mpr
  intro r hr
  simp only [decide_eq_true_eq]
  intro hrp
  apply hnot
  rw [← hrp]
  exact hsub.subset (List.mem_map_of_mem _ (List.mem_reverse.mp hr))

theorem lookup_delete_ne (q : String) (c : Catalog) (p : String) (h : q ≠ p) :
    (deleteFileCascade c q).lookup p = c.lookup p := by
  unfold Catalog.lookup deleteFileCascade
  apply find?_filter_of_imp
  intro x hx
  simp only [decide_eq_true_eq] at hx ⊢
  intro hxe
  exact h (hxe.symm.trans hx)

theorem remove_stale_lookup_seen (c : Catalog) (st : ScanState) (label : String)
    (seen : List String) (p : String) (hp : p ∈ seen) :
    (remove_stale c st label seen).1.lookup p = c.lookup p := by
  have hcp : seen.contains p = true := List.elem_iff.mpr hp
  have main : ∀ (l : List String) (c0 : Catalog),
      (l.foldl (fun c q => if seen.contains q then c else deleteFileCascade c q)
        c0).lookup p = c0.lookup p := by
    intro l
    induction l with
    | nil => intro c0; rfl
    | cons q t ih =>
      intro c0
      rw [List.foldl_cons]
      by_cases hq : seen.contains q
      · rw [if_pos hq]
        exact ih _
      · rw [if_neg hq]
        rw [ih]
        apply lookup_delete_ne
        intro hqp
        exact hq (hqp ▸ hcp)
  simp only [remove_stale]
  by_cases hroot : seen.contains ("/" ++ label)
  · rw [if_pos hroot]
    exact main _ c
  · rw [if_neg hroot]
    rw [lookup_delete_ne ("/" ++ label) _ p
      (fun hqp => hroot (by rw [hqp]; exact hcp))]
    exact main _ c

theorem lookup_apply_tags (parse : String → Option Int) (label : String)
    (c : Catalog) (p : String) :
    (apply_tags_bulk parse label c).lookup p = c.lookup p := by
  unfold Catalog.lookup
  rw [apply_tags_bulk_files]

theorem phase1_lookup (ctx : P1Ctx) (full : Bool) (cat : Catalog) (st : ScanState)
    (p : String) (hp : p ∈ seenOf ctx ctx.R.walkEntries) :
    ((phase1_index ctx none full cat st).1).lookup p =
      ((genRows ctx (if full then [] else loadExisting cat ctx.source.effLabel)
          full ctx.R.walkEntries).reverse.find? (fun r => r.path = p)).or
        (cat.lookup p) := by
  obtain ⟨h1, _, _, _⟩ := phase1_index_net ctx full cat st
  rw [h1]
  by_cases hfull : full = true
  · subst hfull
    rw [if_pos rfl]
    rw [remove_stale_lookup_seen _ _ _ _ _ hp, lookup_apply_tags, lookup_flushBatch]
  · rw [Bool.not_eq_true] at hfull
    subst hfull
    rw [if_neg (by simp)]
    rw [lookup_apply_tags, lookup_flushBatch]

theorem updateHashText_proj (p : String) (res : EnrichResult) (c : Catalog) :
    (updateHashText p res c).files.map
        (fun r => (r.path, r.modified_at, r.is_directory)) =
      c.files.map (fun r => (r.path, r.modified_at, r.is_directory)) := by
  unfold updateHashText
  simp only [List.map_map]
  apply List.map_congr_left
  intro r _
  by_cases hp : r.path = p <;> simp [Function.comp, hp]

theorem insertOrReplaceMeta_files (p m : String) (c : Catalog) :
    (insertOrReplaceMeta p m c).files = c.files := rfl

theorem phase2_proj (enrich : FileRow → Option EnrichResult) (c : Catalog) :
    (phase2_enrich enrich c).files.map
        (fun r => (r.path, r.modified_at, r.is_directory)) =
      c.files.map (fun r => (r.path, r.modified_at, r.is_directory)) := by
  unfold phase2_enrich
  generalize (c.files.filter _) = targets
  have main : ∀ (ts : List FileRow) (cc : Catalog),
      cc.files.map (fun r => (r.path, r.modified_at, r.is_directory)) =
        c.files.map (fun r => (r.path, r.modified_at, r.is_directory)) →
      ((ts.foldl (fun cc t =>
        match enrich t with
        | none => cc
        | some res =>
          let cc :=
            if res.file_hash.isSome ∨ res.full_text.isSome then
              updateHashText t.path res cc
            else cc
          match res.metadata with
          | some m => insertOrReplaceMeta t.path m cc
          | none => cc) cc).files.map
          (fun r => (r.path, r.modified_at, r.is_directory))) =
        c.files.map (fun r => (r.path, r.modified_at, r.is_directory)) := by
    intro ts
    induction ts with
    | nil => exact fun cc h => h
    | cons t rest ih =>
      intro cc h
      rw [List.foldl_cons]
      apply ih
      rcases henr : enrich t with _ | res
      · simpa [henr] using h
      · simp only [henr]
        rcases hmeta : res.metadata with _ | m <;>
          by_cases hup : res.file_hash.isSome ∨ res.full_text.isSome <;>
          simp [hmeta, hup, insertOrReplaceMeta_files, updateHashText_proj, h]
  exact main targets c rfl

theorem find?_path_proj {l l' : List FileRow}
    (h : l.map (fun r => (r.path, r.modified_at, r.is_directory)) =
         l'.map (fun r => (r.path, r.modified_at, r.is_directory))) (p : String) :
    Option.map (fun r : FileRow => (r.path, r.modified_at, r.is_directory))
        (l.find? (fun r => r.path = p)) =
      Option.map (fun r : FileRow => (r.path, r.modified_at, r.is_directory))
        (l'.find? (fun r => r.path = p)) := by
  induction l generalizing l' with
  | nil =>
    cases l' with
    | nil => rfl
    | cons b t' => simp at h
  | cons a t ih =>
    cases l' with
    | nil => simp at h
    | cons b t' =>
      simp only [List.map_cons, List.cons.injEq, Prod.mk.injEq] at h
      obtain ⟨⟨hpath, hmod, hdir⟩, ht⟩ := h
      by_cases hp : a.path = p
      · rw [List.find?_cons_of_pos _ (by simpa using hp),
          List.find?_cons_of_pos _ (by simpa [← hpath] using hp)]
        simp [hpath, hmod, hdir]
      · rw [List.find?_cons_of_neg _ (by simpa using hp),
          List.find?_cons_of_neg _ (by simpa [← hpath] using hp)]
        exact ih ht

theorem phase2_lookup_proj (enrich : FileRow → Option EnrichResult) (c : Catalog)
    (p : String) :
    Option.map (fun r : FileRow => (r.path, r.modified_at, r.is_directory))
        ((phase2_enrich enrich c).lookup p) =
      Option.map (fun r : FileRow => (r.path, r.modified_at, r.is_directory))
        (c.lookup p) :=
  find?_path_proj (phase2_proj enrich c) p

theorem existingLookup_loadExisting_of_lookup {c : Catalog} (hu : c.pathsUnique)
    {label p : String} {r : FileRow} (hl : c.lookup p = some r)
    (hlike : likeMatch ("/" ++ label ++ "/%").data p.data = true) :
    existingLookup (loadExisting c label) p = some r.modified_at := by
  have hmem : r ∈ c.files := List.mem_of_find?_eq_some hl
  have hpath : r.path = p := by simpa using List.find?_some hl
  have hkeys : ((loadExisting c label).map (fun e => e.1)).Nodup := by
    unfold loadExisting
    rw [List.map_map]
    have : ((fun e : String × Option String => e.1) ∘
        (fun r : FileRow => (r.path, r.modified_at))) =
        fun r : FileRow => r.path := rfl
    rw [this]
    exact ((List.filter_sublist _).map _).nodup hu
  have hpair : (r.path, r.modified_at) ∈ loadExisting c label := by
    unfold loadExisting
    apply List.mem_map_of_mem
    apply List.mem_filter.mpr
    refine ⟨hmem, ?_⟩
    rw [hpath]
    exact hlike
  have hfind := find?_key_unique (fun e : String × Option String => e.1)
    (loadExisting c label).reverse
    (by rw [List.map_reverse, List.nodup_reverse]; exact hkeys)
    (r.path, r.modified_at) (List.mem_reverse.mpr hpair)
  unfold existingLookup
  rw [hpath] at hfind
  rw [hfind]
  rfl

theorem existingLookup_loadExisting_inv {c : Catalog} {label p : String}
    {v : Option String}
    (h : existingLookup (loadExisting c label) p = some v) :
    ∃ r ∈ c.files, r.path = p ∧ r.modified_at = v := by
  unfold existingLookup at h
  rcases hf : (loadExisting c label).reverse.find? (fun e => e.1 = p) with _ | pair
  · rw [hf] at h
    cases h
  · rw [hf] at h
    have hp1 : pair.1 = p := by simpa using List.find?_some hf
    have hmem : pair ∈ loadExisting c label :=
      List.mem_reverse.mp (List.mem_of_find?_eq_some hf)
    unfold loadExisting at hmem
    obtain ⟨r, hr, hrp⟩ := List.mem_map.mp hmem
    subst hrp
    refine ⟨r, List.mem_of_mem_filter hr, hp1, ?_⟩
    simpa using h

theorem filterMap_eq_nil_of {α β : Type} (g : α → Option β) :
    ∀ (l : List α), (∀ a ∈ l, g a = none) → l.filterMap g = [] := by
  intro l
  induction l with
  | nil => intro _; rfl
  | cons a t ih =>
    intro h
    rw [filterMap_cons_toList, h a (List.mem_cons_self _ _), Option.toList_none,
      List.nil_append]
    exact ih (fun x hx => h x (List.mem_cons_of_mem _ hx))

theorem updateHashText_mem_ne (p : String) (res : EnrichResult) {c : Catalog}
    {r : FileRow} (hr : r ∈ c.files) (hne : r.path ≠ p) :
    r ∈ (updateHashText p res c).files := by
  unfold updateHashText
  refine List.mem_map.mpr ⟨r, hr, ?_⟩
  rw [if_neg hne]

theorem phase2_keeps_row (enrich : FileRow → Option EnrichResult) {c : Catalog}
    (hu : c.pathsUnique) {r : FileRow} (hr : r ∈ c.files)
    (hhash : r.file_hash.isSome = true) :
    r ∈ (phase2_enrich enrich c).files := by
  unfold phase2_enrich
  have hne : ∀ t ∈ c.files.filter (fun x =>
      x.is_directory = false ∧ x.file_hash = none), t.path ≠ r.path := by
    intro t ht hpt
    have htm := List.mem_of_mem_filter ht
    have htp := List.of_mem_filter ht
    simp only [decide_eq_true_eq] at htp
    have hteq : t = r := (List.inj_on_of_nodup_map hu) htm hr hpt
    rw [hteq] at htp
    rw [htp.2] at hhash
    exact absurd hhash (by decide)
  have main : ∀ (ts : List FileRow) (cc : Catalog), r ∈ cc.files →
      (∀ t ∈ ts, t.path ≠ r.path) →
      r ∈ (ts.foldl (fun cc t =>
        match enrich t with
        | none => cc
        | some res =>
          let cc :=
            if res.file_hash.isSome ∨ res.full_text.isSome then
              updateHashText t.path res cc
            else cc
          match res.metadata with
          | some m => insertOrReplaceMeta t.path m cc
          | none => cc) cc).files := by
    intro ts
    induction ts with
    | nil => exact fun cc h _ => h
    | cons t rest ih =>
      intro cc hcc hts
      rw [List.foldl_cons]
      apply ih _ _ (fun x hx => hts x (List.mem_cons_of_mem _ hx))
      have htne : r.path ≠ t.path := fun he =>
        hts t (List.mem_cons_self _ _) he.symm
      rcases henr : enrich t with _ | res
      · simpa [henr] using hcc
      · simp only [henr]
        rcases hmeta : res.metadata with _ | m <;>
          simp only [hmeta, insertOrReplaceMeta_files] <;>
          split <;>
          first
            | exact updateHashText_mem_ne t.path res hcc htne
            | exact hcc
  exact main _ c hr hne

theorem c3_skip (ctx : P1Ctx) (now2 : String) (full1 : Bool) (cat0 : Catalog)
    (st0 : ScanState) (enrich : FileRow → Option EnrichResult)
    (hu0 : cat0.pathsUnique) (hd0 : dirInv cat0)
    (hnd : (seenOf ctx ctx.R.walkEntries).Nodup)
    (hlike : ∀ e ∈ ctx.R.walkEntries, ∀ fn ∈ e.2,
      likeMatch ("/" ++ ctx.source.effLabel ++ "/%").data
        (smb_to_relative (pyRstripChar bslashChar e.1 ++ "\\" ++ fn)
          ctx.source).data = true)
    {e : String × List String} (he : e ∈ ctx.R.walkEntries)
    {fn : String} (hfn : fn ∈ e.2) :
    genFileRow { ctx with nowIso := now2 }
      (loadExisting
        (phase2_enrich enrich (phase1_index ctx none full1 cat0 st0).1)
        ctx.source.effLabel)
      false e.1 (smb_to_relative e.1 ctx.source) fn = none := by
  simp only [genFileRow]
  rcases hs : statOf ctx.R (pyRstripChar bslashChar e.1 ++ "\\" ++ fn) with _ | info
  · simp [hs]
  · have hseen : smb_to_relative (pyRstripChar bslashChar e.1 ++ "\\" ++ fn)
        ctx.source ∈ seenOf ctx ctx.R.walkEntries := by
      apply List.mem_flatMap.mpr
      refine ⟨e, he, ?_⟩
      simp only [seenOfEntry]
      apply List.mem_cons.mpr
      right
      exact List.mem_map_of_mem _ hfn
    have hstep1 : ∃ rv : FileRow,
        ((phase1_index ctx none full1 cat0 st0).1).lookup
          (smb_to_relative (pyRstripChar bslashChar e.1 ++ "\\" ++ fn)
            ctx.source) = some rv ∧ rv.modified_at = some info.mtimeIso := by
      rw [phase1_lookup ctx full1 cat0 st0 _ hseen]
      by_cases hfull : full1 = true
      · subst hfull
        rw [if_pos rfl]
        rcases hgen : genFileRow ctx [] true e.1 (smb_to_relative e.1 ctx.source)
            fn with _ | rb
        · exfalso
          simp [genFileRow, hs, existingLookup] at hgen
        · obtain ⟨info1, hs1, hrow⟩ := genFileRow_inv ctx [] true e.1 _ fn hgen
          rw [hs] at hs1
          injection hs1 with hinfo
          subst hinfo
          have hfind := genRows_find_of_some hnd he hfn hgen
          have hpath : rb.1.path = smb_to_relative
              (pyRstripChar bslashChar e.1 ++ "\\" ++ fn) ctx.source := by
            rw [hrow]
          rw [hpath] at hfind
          rw [hfind, Option.or_some]
          exact ⟨rb.1, rfl, by rw [hrow]⟩
      · rw [Bool.not_eq_true] at hfull
        subst hfull
        rw [if_neg (by decide)]
        rcases hgen : genFileRow ctx (loadExisting cat0 ctx.source.effLabel) false
            e.1 (smb_to_relative e.1 ctx.source) fn with _ | rb
        · have hgen' := hgen
          simp only [genFileRow, hs] at hgen'
          by_cases hskip : ¬ false = true ∧ existingLookup
              (loadExisting cat0 ctx.source.effLabel)
              (smb_to_relative (pyRstripChar bslashChar e.1 ++ "\\" ++ fn)
                ctx.source) = some (some info.mtimeIso)
          · obtain ⟨r0, hr0mem, hr0path, hr0mod⟩ :=
              existingLookup_loadExisting_inv hskip.2
            obtain ⟨E1, E2, hE⟩ := List.append_of_mem he
            obtain ⟨fs1, fs2, hF⟩ := List.append_of_mem hfn
            have hEntry : e = (e.1, fs1 ++ fn :: fs2) := by rw [← hF]
            have hE' : ctx.R.walkEntries = E1 ++ (e.1, fs1 ++ fn :: fs2) :: E2 := by
              rw [← hEntry]
              exact hE
            have hnd' := hnd
            rw [hE'] at hnd'
            have hfind := genRows_find_of_none ctx
              (loadExisting cat0 ctx.source.effLabel) false E1 E2 e.1 fs1 fs2 fn
              hnd' hgen
            rw [hE', hfind, Option.none_or]
            have hl0 : cat0.lookup (smb_to_relative
                (pyRstripChar bslashChar e.1 ++ "\\" ++ fn) ctx.source) =
                some r0 := by
              have hlu := lookup_of_mem_unique hu0 hr0mem
              rw [hr0path] at hlu
              exact hlu
            rw [hl0]
            exact ⟨r0, rfl, hr0mod⟩
          · rw [if_neg hskip] at hgen'
            exact absurd hgen' (by simp)
        · obtain ⟨info1, hs1, hrow⟩ := genFileRow_inv ctx
            (loadExisting cat0 ctx.source.effLabel) false e.1 _ fn hgen
          rw [hs] at hs1
          injection hs1 with hinfo
          subst hinfo
          have hfind := genRows_find_of_some hnd he hfn hgen
          have hpath : rb.1.path = smb_to_relative
              (pyRstripChar bslashChar e.1 ++ "\\" ++ fn) ctx.source := by
            rw [hrow]
          rw [hpath] at hfind
          rw [hfind, Option.or_some]
          exact ⟨rb.1, rfl, by rw [hrow]⟩
    obtain ⟨rv, hrv, hrvmod⟩ := hstep1
    obtain ⟨hd1, hu1⟩ := phase1_index_preserves ctx none full1 cat0 st0 hu0 hd0
    obtain ⟨hd1', hu1'⟩ := phase2_enrich_preserves enrich hu1 hd1
    have hproj := phase2_lookup_proj enrich (phase1_index ctx none full1 cat0 st0).1
      (smb_to_relative (pyRstripChar bslashChar e.1 ++ "\\" ++ fn) ctx.source)
    rw [hrv] at hproj
    rcases h2 : (phase2_enrich enrich
        (phase1_index ctx none full1 cat0 st0).1).lookup
        (smb_to_relative (pyRstripChar bslashChar e.1 ++ "\\" ++ fn) ctx.source)
        with _ | rv'
    · rw [h2] at hproj
      exact absurd hproj (by simp)
    · rw [h2] at hproj
      have hmodeq : rv'.modified_at = rv.modified_at := by
        have h3 : (rv'.path, rv'.modified_at, rv'.is_directory) =
            (rv.path, rv.modified_at, rv.is_directory) := by simpa using hproj
        exact congrArg (fun q : String × Option String × Bool => q.2.1) h3
      have hEx : existingLookup
          (loadExisting (phase2_enrich enrich
            (phase1_index ctx none full1 cat0 st0).1) ctx.source.effLabel)
          (smb_to_relative (pyRstripChar bslashChar e.1 ++ "\\" ++ fn)
            ctx.source) = some rv'.modified_at :=
        existingLookup_loadExisting_of_lookup hu1' h2 (hlike e he fn hfn)
      have hmod : rv'.modified_at = some info.mtimeIso := by
        rw [hmodeq, hrvmod]
      rw [hmod] at hEx
      simp [hs, hEx]

theorem flatMap_eq_nil_of {α β : Type} (g : α → List β) :
    ∀ (l : List α), (∀ a ∈ l, g a = []) → l.flatMap g = [] := by
  intro l
  induction l with
  | nil => intro _; rfl
  | cons a t ih =>
    intro h
    rw [List.flatMap_cons, h a (List.mem_cons_self _ _), List.nil_append]
    exact ih (fun x hx => h x (List.mem_cons_of_mem _ hx))

/-- **C3.** An initial scan (Phase 1 in any mode, then Phase 2 enrichment)
followed by a second *incremental* scan of the same, unchanged share: the
second scan's Phase 1 finishes with `files_added = 0` and
`files_updated = 0` (starting from the reset counters), and every
non-directory row that the first scan enriched (its `file_hash` is set)
survives the whole second scan unchanged — in particular its `file_hash`
value is preserved. Hypotheses: the starting catalog is well formed
(unique paths, sound directory rows), the walk records distinct logical
paths, and every walked file's logical path lies under the source's
label (`LIKE '/label/%'`). -/
theorem C3_incremental_noop (ctx : P1Ctx) (now2 : String) (full1 : Bool)
    (cat0 : Catalog) (st0 stIn : ScanState)
    (enrich enrich2 : FileRow → Option EnrichResult)
    (hu0 : cat0.pathsUnique) (hd0 : dirInv cat0)
    (hnd : (seenOf ctx ctx.R.walkEntries).Nodup)
    (hlike : ∀ e ∈ ctx.R.walkEntries, ∀ fn ∈ e.2,
      likeMatch ("/" ++ ctx.source.effLabel ++ "/%").data
        (smb_to_relative (pyRstripChar bslashChar e.1 ++ "\\" ++ fn)
          ctx.source).data = true)
    (hA : stIn.files_added = 0) (hU : stIn.files_updated = 0) :
    (phase1_index { ctx with nowIso := now2 } none false
        (phase2_enrich enrich (phase1_index ctx none full1 cat0 st0).1)
        stIn).2.1.files_added = 0 ∧
    (phase1_index { ctx with nowIso := now2 } none false
        (phase2_enrich enrich (phase1_index ctx none full1 cat0 st0).1)
        stIn).2.1.files_updated = 0 ∧
    ∀ r ∈ (phase2_enrich enrich (phase1_index ctx none full1 cat0 st0).1).files,
      r.is_directory = false → r.file_hash.isSome = true →
      r ∈ (phase2_enrich enrich2
        (phase1_index { ctx with nowIso := now2 } none false
          (phase2_enrich enrich (phase1_index ctx none full1 cat0 st0).1)
          stIn).1).files := by
  obtain ⟨n1, n2, n3, n4⟩ := phase1_index_net { ctx with nowIso := now2 } false
    (phase2_enrich enrich (phase1_index ctx none full1 cat0 st0).1) stIn
  have hEntryNil : ∀ e ∈ ctx.R.walkEntries,
      genEntryFiles { ctx with nowIso := now2 }
        (loadExisting
          (phase2_enrich enrich (phase1_index ctx none full1 cat0 st0).1)
          ctx.source.effLabel) false e = [] := by
    intro e he
    unfold genEntryFiles
    apply filterMap_eq_nil_of
    intro fn hfn
    exact c3_skip ctx now2 full1 cat0 st0 enrich hu0 hd0 hnd hlike he hfn
  have hFlagsNil : genFlags { ctx with nowIso := now2 }
      (if (false : Bool) then [] else loadExisting
        (phase2_enrich enrich (phase1_index ctx none full1 cat0 st0).1)
        ({ ctx with nowIso := now2 } : P1Ctx).source.effLabel) false
      ({ ctx with nowIso := now2 } : P1Ctx).R.walkEntries = [] := by
    unfold genFlags
    apply flatMap_eq_nil_of
    intro e he
    have he' : e ∈ ctx.R.walkEntries := he
    simp [hEntryNil e he']
  refine ⟨?_, ?_, ?_⟩
  · rw [n2, hFlagsNil, hA]
    rfl
  · rw [n3, hFlagsNil, hU]
    rfl
  · obtain ⟨hd1, hu1⟩ := phase1_index_preserves ctx none full1 cat0 st0 hu0 hd0
    obtain ⟨hd1', hu1'⟩ := phase2_enrich_preserves enrich hu1 hd1
    have hW2dir : ∀ w ∈ genRows { ctx with nowIso := now2 }
        (if (false : Bool) then [] else loadExisting
          (phase2_enrich enrich (phase1_index ctx none full1 cat0 st0).1)
          ({ ctx with nowIso := now2 } : P1Ctx).source.effLabel) false
        ({ ctx with nowIso := now2 } : P1Ctx).R.walkEntries,
        ∃ e ∈ ctx.R.walkEntries, w = genDirRow { ctx with nowIso := now2 } e := by
      intro w hw
      obtain ⟨e, he, hwe⟩ := List.mem_flatMap.mp hw
      have he' : e ∈ ctx.R.walkEntries := he
      have hwe' : w = genDirRow { ctx with nowIso := now2 } e := by
        simpa [genEntryRows, hEntryNil e he'] using hwe
      exact ⟨e, he', hwe'⟩
    have hdirlook : ∀ e ∈ ctx.R.walkEntries, ∃ dv,
        ((phase2_enrich enrich (phase1_index ctx none full1 cat0 st0).1)).lookup
          (smb_to_relative e.1 ctx.source) = some dv ∧
        dv.is_directory = true := by
      intro e he
      have hseenD : smb_to_relative e.1 ctx.source ∈
          seenOf ctx ctx.R.walkEntries := by
        apply List.mem_flatMap.mpr
        refine ⟨e, he, ?_⟩
        simp [seenOfEntry]
      have hl1 : ((phase1_index ctx none full1 cat0 st0).1).lookup
          (smb_to_relative e.1 ctx.source) = some (genDirRow ctx e) := by
        rw [phase1_lookup ctx full1 cat0 st0 _ hseenD, genRows_find_dir hnd he,
          Option.or_some]
      have hproj := phase2_lookup_proj enrich
        (phase1_index ctx none full1 cat0 st0).1
        (smb_to_relative e.1 ctx.source)
      rw [hl1] at hproj
      rcases h2 : ((phase2_enrich enrich
          (phase1_index ctx none full1 cat0 st0).1)).lookup
          (smb_to_relative e.1 ctx.source) with _ | dv
      · rw [h2] at hproj
        exact absurd hproj (by simp)
      · rw [h2] at hproj
        have h3 : (dv.path, dv.modified_at, dv.is_directory) =
            ((genDirRow ctx e).path, (genDirRow ctx e).modified_at,
              (genDirRow ctx e).is_directory) := by
          simpa using hproj
        have hdir : dv.is_directory = (genDirRow ctx e).is_directory :=
          congrArg (fun q : String × Option String × Bool => q.2.2) h3
        exact ⟨dv, rfl, by rw [hdir]; rfl⟩
    intro r hr hdirr hhash
    have hfresh : ∀ w ∈ genRows { ctx with nowIso := now2 }
        (if (false : Bool) then [] else loadExisting
          (phase2_enrich enrich (phase1_index ctx none full1 cat0 st0).1)
          ({ ctx with nowIso := now2 } : P1Ctx).source.effLabel) false
        ({ ctx with nowIso := now2 } : P1Ctx).R.walkEntries,
        w.path ≠ r.path := by
      intro w hw hcol
      obtain ⟨e, he, rfl⟩ := hW2dir w hw
      have hwpath : (genDirRow { ctx with nowIso := now2 } e).path =
          smb_to_relative e.1 ctx.source := rfl
      obtain ⟨dv, hdv, hdvdir⟩ := hdirlook e he
      have hlr := lookup_of_mem_unique hu1' hr
      rw [← hcol, hwpath] at hlr
      rw [hdv] at hlr
      have hdr : dv = r := Option.some.inj hlr
      rw [hdr, hdirr] at hdvdir
      exact Bool.noConfusion hdvdir
    have hmem2 : r ∈ ((phase1_index { ctx with nowIso := now2 } none false
        (phase2_enrich enrich (phase1_index ctx none full1 cat0 st0).1)
        stIn).1).files := by
      rw [n1, if_neg (by decide)]
      rw [apply_tags_bulk_files]
      exact mem_flushBatch_preserved _ _ _ hr hfresh
    obtain ⟨hdP, huP⟩ := phase1_index_preserves { ctx with nowIso := now2 } none
      false (phase2_enrich enrich (phase1_index ctx none full1 cat0 st0).1)
      stIn hu1' hd1'
    exact phase2_keeps_row enrich2 huP hmem2 hhash

/-- Witness for C3: a full initial scan of a one-file share, a Phase-2
pass, then an incremental re-scan from fresh counters. -/
theorem C3_incremental_noop_witness :
    Catalog.empty.pathsUnique ∧ dirInv Catalog.empty ∧
    (seenOf
      (⟨(fun _ => "application/octet-stream"), (fun _ => none), 1000,
        ⟨"nas", "media", "u", "p", "/", "media"⟩,
        ⟨[("\\\\nas\\media", ["a.txt"])],
          [("\\\\nas\\media", ⟨0, "m0", "c0"⟩),
           ("\\\\nas\\media\\a.txt", ⟨5, "m1", "c1"⟩)]⟩, "t0"⟩ : P1Ctx)
      ((⟨(fun _ => "application/octet-stream"), (fun _ => none), 1000,
        ⟨"nas", "media", "u", "p", "/", "media"⟩,
        ⟨[("\\\\nas\\media", ["a.txt"])],
          [("\\\\nas\\media", ⟨0, "m0", "c0"⟩),
           ("\\\\nas\\media\\a.txt", ⟨5, "m1", "c1"⟩)]⟩, "t0"⟩ : P1Ctx).R.walkEntries)).Nodup ∧
    (∀ e ∈ ((⟨(fun _ => "application/octet-stream"), (fun _ => none), 1000,
        ⟨"nas", "media", "u", "p", "/", "media"⟩,
        ⟨[("\\\\nas\\media", ["a.txt"])],
          [("\\\\nas\\media", ⟨0, "m0", "c0"⟩),
           ("\\\\nas\\media\\a.txt", ⟨5, "m1", "c1"⟩)]⟩, "t0"⟩ : P1Ctx).R.walkEntries),
      ∀ fn ∈ e.2,
      likeMatch ("/" ++ (⟨(fun _ => "application/octet-stream"), (fun _ => none), 1000,
          ⟨"nas", "media", "u", "p", "/", "media"⟩,
          ⟨[("\\\\nas\\media", ["a.txt"])],
            [("\\\\nas\\media", ⟨0, "m0", "c0"⟩),
             ("\\\\nas\\media\\a.txt", ⟨5, "m1", "c1"⟩)]⟩, "t0"⟩ : P1Ctx).source.effLabel ++ "/%").data
        (smb_to_relative (pyRstripChar bslashChar e.1 ++ "\\" ++ fn)
          (⟨(fun _ => "application/octet-stream"), (fun _ => none), 1000,
            ⟨"nas", "media", "u", "p", "/", "media"⟩,
            ⟨[("\\\\nas\\media", ["a.txt"])],
              [("\\\\nas\\media", ⟨0, "m0", "c0"⟩),
               ("\\\\nas\\media\\a.txt", ⟨5, "m1", "c1"⟩)]⟩, "t0"⟩ : P1Ctx).source).data = true) ∧
    (freshScanState "t2").files_added = 0 ∧
    (freshScanState "t2").files_updated = 0 ∧
    ((phase1_index
        { (⟨(fun _ => "application/octet-stream"), (fun _ => none), 1000,
            ⟨"nas", "media", "u", "p", "/", "media"⟩,
            ⟨[("\\\\nas\\media", ["a.txt"])],
              [("\\\\nas\\media", ⟨0, "m0", "c0"⟩),
               ("\\\\nas\\media\\a.txt", ⟨5, "m1", "c1"⟩)]⟩, "t0"⟩ : P1Ctx)
          with nowIso := "t2" } none false
        (phase2_enrich (fun _ => none)
          (phase1_index
            (⟨(fun _ => "application/octet-stream"), (fun _ => none), 1000,
              ⟨"nas", "media", "u", "p", "/", "media"⟩,
              ⟨[("\\\\nas\\media", ["a.txt"])],
                [("\\\\nas\\media", ⟨0, "m0", "c0"⟩),
                 ("\\\\nas\\media\\a.txt", ⟨5, "m1", "c1"⟩)]⟩, "t0"⟩ : P1Ctx)
            none true Catalog.empty (freshScanState "t0")).1)
        (freshScanState "t2")).2.1.files_added = 0 ∧
      (phase1_index
        { (⟨(fun _ => "application/octet-stream"), (fun _ => none), 1000,
            ⟨"nas", "media", "u", "p", "/", "media"⟩,
            ⟨[("\\\\nas\\media", ["a.txt"])],
              [("\\\\nas\\media", ⟨0, "m0", "c0"⟩),
               ("\\\\nas\\media\\a.txt", ⟨5, "m1", "c1"⟩)]⟩, "t0"⟩ : P1Ctx)
          with nowIso := "t2" } none false
        (phase2_enrich (fun _ => none)
          (phase1_index
            (⟨(fun _ => "application/octet-stream"), (fun _ => none), 1000,
              ⟨"nas", "media", "u", "p", "/", "media"⟩,
              ⟨[("\\\\nas\\media", ["a.txt"])],
                [("\\\\nas\\media", ⟨0, "m0", "c0"⟩),
                 ("\\\\nas\\media\\a.txt", ⟨5, "m1", "c1"⟩)]⟩, "t0"⟩ : P1Ctx)
            none true Catalog.empty (freshScanState "t0")).1)
        (freshScanState "t2")).2.1.files_updated = 0 ∧
      ∀ r ∈ (phase2_enrich (fun _ => none)
          (phase1_index
            (⟨(fun _ => "application/octet-stream"), (fun _ => none), 1000,
              ⟨"nas", "media", "u", "p", "/", "media"⟩,
              ⟨[("\\\\nas\\media", ["a.txt"])],
                [("\\\\nas\\media", ⟨0, "m0", "c0"⟩),
                 ("\\\\nas\\media\\a.txt", ⟨5, "m1", "c1"⟩)]⟩, "t0"⟩ : P1Ctx)
            none true Catalog.empty (freshScanState "t0")).1).files,
        r.is_directory = false → r.file_hash.isSome = true →
        r ∈ (phase2_enrich (fun _ => none)
          (phase1_index
            { (⟨(fun _ => "application/octet-stream"), (fun _ => none), 1000,
                ⟨"nas", "media", "u", "p", "/", "media"⟩,
                ⟨[("\\\\nas\\media", ["a.txt"])],
                  [("\\\\nas\\media", ⟨0, "m0", "c0"⟩),
                   ("\\\\nas\\media\\a.txt", ⟨5, "m1", "c1"⟩)]⟩, "t0"⟩ : P1Ctx)
              with nowIso := "t2" } none false
            (phase2_enrich (fun _ => none)
              (phase1_index
                (⟨(fun _ => "application/octet-stream"), (fun _ => none), 1000,
                  ⟨"nas", "media", "u", "p", "/", "media"⟩,
                  ⟨[("\\\\nas\\media", ["a.txt"])],
                    [("\\\\nas\\media", ⟨0, "m0", "c0"⟩),
                     ("\\\\nas\\media\\a.txt", ⟨5, "m1", "c1"⟩)]⟩, "t0"⟩ : P1Ctx)
                none true Catalog.empty (freshScanState "t0")).1)
            (freshScanState "t2")).1).files) :=
  ⟨by simp [Catalog.pathsUnique, Catalog.empty], by decide, by decide, by decide,
    rfl, rfl,
    C3_incremental_noop
      (⟨(fun _ => "application/octet-stream"), (fun _ => none), 1000,
        ⟨"nas", "media", "u", "p", "/", "media"⟩,
        ⟨[("\\\\nas\\media", ["a.txt"])],
          [("\\\\nas\\media", ⟨0, "m0", "c0"⟩),
           ("\\\\nas\\media\\a.txt", ⟨5, "m1", "c1"⟩)]⟩, "t0"⟩ : P1Ctx)
      "t2" true Catalog.empty (freshScanState "t0") (freshScanState "t2")
      (fun _ => none) (fun _ => none)
      (by simp [Catalog.pathsUnique, Catalog.empty]) (by decide) (by decide)
      (by decide) rfl rfl⟩
